import Mathlib

/-!
Verification development for the Notion ↔ Google Calendar sync program
(`sync.py`).  The Python source is shallowly embedded: its pure helpers
become Lean functions, the two sync passes become explicit state-passing
folds over a `World` record holding both stores, and Python exceptions
become `Option`/`Except` values.  Machine-level concerns (HTTP, JSON) are
out of scope; API calls are modelled as direct state transformations, with
oracles for their failure behaviour where a claim is about failures.
-/

/-! ## Calendar dates

`sync.py` manipulates day-granularity dates as `"YYYY-MM-DD"` strings via
`datetime.strptime(s, "%Y-%m-%d") ± timedelta(days=1)` followed by
`strftime("%Y-%m-%d")`.  We embed a proleptic-Gregorian date as a triple
and embed `± timedelta(days=1)` as the calendar successor/predecessor,
which is extensionally what Python's ordinal-based date arithmetic
computes.  `none` models the `ValueError`/`OverflowError` raised on a
malformed string or on stepping outside Python's year range 1..9999. -/

structure Date where
  y : Nat
  m : Nat
  d : Nat
deriving DecidableEq

def isLeap (y : Nat) : Bool :=
  y % 4 = 0 && (y % 100 != 0 || y % 400 = 0)

def daysInMonth (y m : Nat) : Nat :=
  if m = 2 then (if isLeap y then 29 else 28)
  else if m = 4 ∨ m = 6 ∨ m = 9 ∨ m = 11 then 30
  else 31

/-- Python's `datetime.date` accepts years 1..9999 and checked month/day. -/
def validDate (dt : Date) : Bool :=
  1 ≤ dt.y && dt.y ≤ 9999 && 1 ≤ dt.m && dt.m ≤ 12 && 1 ≤ dt.d
    && dt.d ≤ daysInMonth dt.y dt.m

/-- Calendar successor; `none` models `OverflowError` at `date.max`. -/
def succDate (dt : Date) : Option Date :=
  if dt.d < daysInMonth dt.y dt.m then some ⟨dt.y, dt.m, dt.d + 1⟩
  else if dt.m < 12 then some ⟨dt.y, dt.m + 1, 1⟩
  else if dt.y < 9999 then some ⟨dt.y + 1, 1, 1⟩
  else none

/-- Calendar predecessor; `none` models `OverflowError` at `date.min`. -/
def predDate (dt : Date) : Option Date :=
  if 1 < dt.d then some ⟨dt.y, dt.m, dt.d - 1⟩
  else if 1 < dt.m then some ⟨dt.y, dt.m - 1, daysInMonth dt.y (dt.m - 1)⟩
  else if 1 < dt.y then some ⟨dt.y - 1, 12, 31⟩
  else none

/-- Days in months `1..m-1` of year `y` (cumulative month offsets). -/
def daysBeforeMonth (y m : Nat) : Nat :=
  (List.range (m - 1)).foldl (fun a i => a + daysInMonth y (i + 1)) 0

/-- Number of leap years in `1..y`. -/
def leapsBefore (y : Nat) : Nat := y / 4 - y / 100 + y / 400

/-- Proleptic-Gregorian day number (0001-01-01 ↦ 1), the independent
yardstick used to state that one date is exactly `n` days after another.
It mirrors `datetime.date.toordinal`. -/
def toOrdinal (dt : Date) : Nat :=
  365 * (dt.y - 1) + leapsBefore (dt.y - 1) + daysBeforeMonth dt.y dt.m + dt.d

def digitVal (c : Char) : Option Nat :=
  if c.isDigit then some (c.toNat - 48) else none

def parseDateList : List Char → Option Date
  | [y1, y2, y3, y4, h1, m1, m2, h2, d1, d2] =>
    if h1 = '-' ∧ h2 = '-' then do
      let a ← digitVal y1
      let b ← digitVal y2
      let c ← digitVal y3
      let d ← digitVal y4
      let e ← digitVal m1
      let f ← digitVal m2
      let g ← digitVal d1
      let h ← digitVal d2
      let dt : Date := ⟨a * 1000 + b * 100 + c * 10 + d, e * 10 + f, g * 10 + h⟩
      if validDate dt then some dt else none
    else none
  | _ => none

/-- Strict parse of `"YYYY-MM-DD"` (4-2-2 digits), mirroring
`datetime.strptime(s, "%Y-%m-%d")` on the zero-padded strings this program
produces and consumes; `none` models `ValueError`. -/
def parseDate (s : String) : Option Date := parseDateList s.toList

def digitChar (n : Nat) : Char := Char.ofNat (48 + n)

/-- Decimal rendering of a year, unpadded like glibc `strftime("%Y")`
(years here never exceed 9999, Python's `date.max`). -/
def natDigits (n : Nat) : List Char :=
  if n < 10 then [digitChar n]
  else if n < 100 then [digitChar (n / 10), digitChar (n % 10)]
  else if n < 1000 then [digitChar (n / 100), digitChar (n / 10 % 10), digitChar (n % 10)]
  else [digitChar (n / 1000 % 10), digitChar (n / 100 % 10), digitChar (n / 10 % 10),
        digitChar (n % 10)]

/-- Two-digit zero-padded field (`strftime` `%m` / `%d`). -/
def twoDigits (n : Nat) : List Char := [digitChar (n / 10 % 10), digitChar (n % 10)]

/-- `strftime("%Y-%m-%d")`. -/
def formatDate (dt : Date) : String :=
  ⟨natDigits dt.y ++ '-' :: twoDigits dt.m ++ '-' :: twoDigits dt.d⟩

/-- Embedding of `(strptime(s, "%Y-%m-%d") + timedelta(days=1)).strftime("%Y-%m-%d")`;
`none` models a raised exception. -/
def pyAddOneDay (s : String) : Option String := do
  let dt ← parseDate s
  let dt2 ← succDate dt
  pure (formatDate dt2)

/-- Embedding of `(strptime(s, "%Y-%m-%d") - timedelta(days=1)).strftime("%Y-%m-%d")`;
`none` models a raised exception. -/
def pySubOneDay (s : String) : Option String := do
  let dt ← parseDate s
  let dt2 ← predDate dt
  pure (formatDate dt2)

/-! ## Timestamps

Timed events carry ISO timestamps.  `sync.py` only ever parses them in
`notion_to_calendar_event` via
`datetime.fromisoformat(start_time.replace("Z", "+00:00"))`, adds one
hour, and re-renders with `.isoformat()`.  We embed the
`fromisoformat` grammar on the forms appearing in this development:
`"YYYY-MM-DDTHH:MM[:SS][±HH:MM]"` (no fractional seconds; `'T'`
separator), with Python's range validation; `none` models `ValueError`. -/

structure DateTimeVal where
  date : Date
  hh : Nat
  mm : Nat
  ss : Nat
  /-- UTC offset in minutes (signed); `none` for a naive timestamp. -/
  tz : Option Int
deriving DecidableEq

def parseTwo (a b : Char) : Option Nat := do
  let x ← digitVal a
  let y ← digitVal b
  pure (x * 10 + y)

def parseTzPart : List Char → Option (Option Int)
  | [] => some none
  | [c, o1, o2, ':', p1, p2] =>
    if c = '+' ∨ c = '-' then do
      let oh ← parseTwo o1 o2
      let om ← parseTwo p1 p2
      if oh ≤ 23 ∧ om ≤ 59 then
        let mins : Int := oh * 60 + om
        pure (some (if c = '-' then -mins else mins))
      else none
    else none
  | _ => none

def parseIsoDateTime (s : String) : Option DateTimeVal :=
  match s.toList with
  | y1 :: y2 :: y3 :: y4 :: '-' :: m1 :: m2 :: '-' :: d1 :: d2 :: 'T'
      :: h1 :: h2 :: ':' :: n1 :: n2 :: rest => do
    let a ← digitVal y1
    let b ← digitVal y2
    let c ← digitVal y3
    let d ← digitVal y4
    let e ← digitVal m1
    let f ← digitVal m2
    let g ← digitVal d1
    let h ← digitVal d2
    let dt : Date := ⟨a * 1000 + b * 100 + c * 10 + d, e * 10 + f, g * 10 + h⟩
    let hh ← parseTwo h1 h2
    let mi ← parseTwo n1 n2
    if validDate dt ∧ hh ≤ 23 ∧ mi ≤ 59 then
      match rest with
      | ':' :: s1 :: s2 :: rest2 => do
        let ss ← parseTwo s1 s2
        let tz ← parseTzPart rest2
        if ss ≤ 59 then pure ⟨dt, hh, mi, ss, tz⟩ else none
      | _ => do
        let tz ← parseTzPart rest
        pure ⟨dt, hh, mi, 0, tz⟩
    else none
  | _ => none

def fourDigits (n : Nat) : List Char :=
  [digitChar (n / 1000 % 10), digitChar (n / 100 % 10), digitChar (n / 10 % 10),
   digitChar (n % 10)]

def tzChars : Option Int → List Char
  | none => []
  | some off =>
    (if off < 0 then '-' else '+')
      :: twoDigits (off.natAbs / 60) ++ ':' :: twoDigits (off.natAbs % 60)

/-- `datetime.isoformat()` on a whole-second value: zero-padded fields,
four-digit year, offset rendered as `±HH:MM`. -/
def isoformatDT (t : DateTimeVal) : String :=
  ⟨fourDigits t.date.y ++ '-' :: twoDigits t.date.m ++ '-' :: twoDigits t.date.d
    ++ 'T' :: twoDigits t.hh ++ ':' :: twoDigits t.mm ++ ':' :: twoDigits t.ss
    ++ tzChars t.tz⟩

/-- `+ timedelta(hours=1)`; `none` models `OverflowError` past `datetime.max`. -/
def addOneHour (t : DateTimeVal) : Option DateTimeVal :=
  if t.hh < 23 then some { t with hh := t.hh + 1 }
  else do
    let d2 ← succDate t.date
    pure { t with date := d2, hh := 0 }

def replaceZChars : List Char → List Char
  | [] => []
  | 'Z' :: rest => '+' :: '0' :: '0' :: ':' :: '0' :: '0' :: replaceZChars rest
  | c :: rest => c :: replaceZChars rest

/-- `s.replace("Z", "+00:00")` (every occurrence of the one-char pattern). -/
def pyReplaceZ (s : String) : String := ⟨replaceZChars s.toList⟩

/-- Embedding of the timed-end synthesis
`datetime.fromisoformat(start.replace("Z", "+00:00")) + timedelta(hours=1)`
rendered with `.isoformat()`; `none` models a raised exception (which the
source catches, falling back to `end = start`). -/
def pyAddOneHourIso (s : String) : Option String := do
  let t ← parseIsoDateTime (pyReplaceZ s)
  let t2 ← addOneHour t
  pure (isoformatDT t2)

/-- Absolute time in seconds (offset-corrected), the yardstick for
"exactly one hour after". -/
def instantSeconds (t : DateTimeVal) : Int :=
  (toOrdinal t.date : Int) * 86400 + t.hh * 3600 + t.mm * 60 + t.ss
    - 60 * t.tz.getD 0

/-! ## Data model

`NotionPage` embeds a fetched Notion item.  The two-strategy title scan of
`extract_title_from_notion` over the property bag is collapsed to
`titleText`: the first title-typed property's first element's
`plain_text` (`none` when the item has no title property or an empty
title array).  The model assumes the title property carries the canonical
name `Project name` that `update_notion_page`/`create_notion_page` write.
`CalEvent` embeds a Google Calendar event; `notionId` is the
`extendedProperties.private.notion_id` link attribute.  Record/event
identifiers are modelled as `Nat`. -/

inductive GTime where
  | gdate (s : String)
  | gdatetime (s : String)
deriving DecidableEq

structure NotionDate where
  start : String
  stop : Option String
deriving DecidableEq

structure NotionPage where
  id : Nat
  url : String
  titleText : Option String
  date : Option NotionDate
deriving DecidableEq

structure CalEvent where
  id : Nat
  summary : Option String
  description : Option String
  gstart : Option GTime
  gend : Option GTime
  notionId : Option Nat
deriving DecidableEq

structure World where
  pages : List NotionPage
  events : List CalEvent
  /-- Fresh-identifier source for ids assigned by the two backends. -/
  nextId : Nat
deriving DecidableEq

/-- `extract_title_from_notion`: first non-empty title text, else the
placeholder. -/
def extract_title_from_notion (p : NotionPage) : String :=
  match p.titleText with
  | some t => if t = "" then "Untitled Event" else t
  | none => "Untitled Event"

/-- `gcal_event_to_notion_date`: the calendar→record range translation.
`none` models the uncaught `strptime` exception on a malformed or
out-of-range all-day end date. -/
def gcal_event_to_notion_date (g : CalEvent) :
    Option (Option String × Option String) :=
  match g.gstart with
  | some (.gdate sd) =>
    let endDate : Option String :=
      match g.gend with
      | some (.gdate ed) => some ed
      | _ => none
    match endDate with
    | some ed =>
      if ed = "" then some (some sd, some ed)
      else
        match pySubOneDay ed with
        | none => none
        | some ed2 => some (some sd, if ed2 = sd then none else some ed2)
    | none => some (some sd, none)
  | some (.gdatetime sdt) =>
    some (some sdt,
      match g.gend with
      | some (.gdatetime edt) => some edt
      | _ => none)
  | none => some (none, none)

structure EventBody where
  summary : String
  description : String
  gstart : GTime
  gend : GTime
deriving DecidableEq

inductive ConvResult where
  | exn
  | skip
  | ok (b : EventBody)
deriving DecidableEq

def notionDescription (p : NotionPage) : String :=
  "Synced from Notion: " ++ p.url

/-- `notion_to_calendar_event`: the record→event translation.  `.skip`
models `return None` (no usable start), `.exn` the uncaught `strptime`
exception on a malformed length-10 start with no end. -/
def notion_to_calendar_event (p : NotionPage) : ConvResult :=
  match p.date with
  | none => .skip
  | some nd =>
    let title := extract_title_from_notion p
    let start_time := nd.start
    let end0 : Option String :=
      match nd.stop with
      | some e => if e = "" then none else some e
      | none => none
    if start_time.length = 10 then
      match end0 with
      | some et => .ok ⟨title, notionDescription p, .gdate start_time, .gdate et⟩
      | none =>
        match pyAddOneDay start_time with
        | none => .exn
        | some et => .ok ⟨title, notionDescription p, .gdate start_time, .gdate et⟩
    else
      if start_time = "" then .skip
      else
        let et :=
          match end0 with
          | some e => e
          | none => (pyAddOneHourIso start_time).getD start_time
        .ok ⟨title, notionDescription p, .gdatetime start_time, .gdatetime et⟩

/-- The `date_property` built by `create_notion_page`/`update_notion_page`:
the end is stored only when truthy and distinct from the start. -/
def buildDateStop (startv : String) : Option String → Option String
  | some e => if e ≠ "" ∧ e ≠ startv then some e else none
  | none => none

/-- A successful `create_notion_page` (page id assigned by the store;
the store-assigned url is not observed by any compared field and is
modelled as `""`). -/
def create_notion_page_props (title startv : String) (stopv : Option String)
    (pid : Nat) : NotionPage :=
  ⟨pid, "", some title, some ⟨startv, buildDateStop startv stopv⟩⟩

/-- A successful `update_notion_page` PATCH on an existing page: rewrites
the title property and the date property, leaves the rest. -/
def update_notion_page_props (p : NotionPage) (title startv : String)
    (stopv : Option String) : NotionPage :=
  { p with titleText := some title, date := some ⟨startv, buildDateStop startv stopv⟩ }

/-! ## Forward pass (`sync_notion_to_calendar`)

API-call failures are modelled by oracles: `itemOk i` covers the calendar
list/update/insert calls for the `i`-th record (its failure is caught by
the per-item handler), `sweepDelOk i` the delete of the `i`-th synced
event (its failure aborts the remaining sweep via the sweep-level
handler), `sweepListOk` the bulk listing before the sweep.  The
batch-of-10 chunking only groups log output and pauses; the processing
order is the plain list order, so the loop is embedded as a single fold. -/

structure FwdOracle where
  itemOk : Nat → Bool
  sweepListOk : Bool
  sweepDelOk : Nat → Bool

def allOkFwd : FwdOracle := ⟨fun _ => true, true, fun _ => true⟩

structure FwdCounts where
  created : Nat
  updated : Nat
  skipped : Nat
  deleted : Nat
deriving DecidableEq

structure RevCounts where
  created : Nat
  updated : Nat
  deleted : Nat
deriving DecidableEq

def mkSyncedEvent (b : EventBody) (eid nid : Nat) : CalEvent :=
  ⟨eid, some b.summary, some b.description, some b.gstart, some b.gend, some nid⟩

def processFwdItem (ok : Bool) (wc : World × FwdCounts) (p : NotionPage) :
    World × FwdCounts :=
  let w := wc.1
  let c := wc.2
  match notion_to_calendar_event p with
  | .skip => (w, { c with skipped := c.skipped + 1 })
  | .exn => (w, c)
  | .ok body =>
    if ok then
      match w.events.filter (fun e => e.notionId = some p.id) with
      | [] =>
        ({ w with events := w.events ++ [mkSyncedEvent body w.nextId p.id],
                  nextId := w.nextId + 1 },
         { c with created := c.created + 1 })
      | e0 :: _ =>
        ({ w with events := w.events.map (fun e =>
             if e.id = e0.id then mkSyncedEvent body e0.id p.id else e) },
         { c with updated := c.updated + 1 })
    else (w, c)

def fwdItems (orc : FwdOracle) :
    List NotionPage → Nat → World × FwdCounts → World × FwdCounts
  | [], _, wc => wc
  | p :: rest, i, wc => fwdItems orc rest (i + 1) (processFwdItem (orc.itemOk i) wc p)

def fwdSweepLoop (orc : FwdOracle) (ids : List Nat) :
    List CalEvent → Nat → World × FwdCounts → World × FwdCounts
  | [], _, wc => wc
  | g :: rest, i, wc =>
    let w := wc.1
    let c := wc.2
    match g.notionId with
    | some nid =>
      if nid ∈ ids then fwdSweepLoop orc ids rest (i + 1) (w, c)
      else if orc.sweepDelOk i then
        fwdSweepLoop orc ids rest (i + 1)
          ({ w with events := w.events.filter (fun e => e.id ≠ g.id) },
           { c with deleted := c.deleted + 1 })
      else (w, c)
    | none => fwdSweepLoop orc ids rest (i + 1) (w, c)

def sync_notion_to_calendar (orc : FwdOracle) (w : World)
    (items : List NotionPage) (ids : List Nat) : World × FwdCounts :=
  let wc1 := fwdItems orc items 0 (w, ⟨0, 0, 0, 0⟩)
  if orc.sweepListOk then
    let synced := wc1.1.events.filter (fun e => e.notionId.isSome)
    fwdSweepLoop orc ids synced 0 wc1
  else wc1

/-! ## Reverse pass (`sync_calendar_to_notion`)

The single `try` wraps the whole loop, so any raised exception ends the
pass with the counts accumulated so far (`Except.error`).  Calendar
update/delete calls raise on failure; the record-store calls
(`create_notion_page`, `update_notion_page`) signal failure by status
code and return falsy, which the loop skips over without raising. -/

structure RevOracle where
  listOk : Bool
  createPageOk : Nat → Bool
  attachOk : Nat → Bool
  deleteOk : Nat → Bool
  pageUpdateOk : Nat → Bool

def allOkRev : RevOracle :=
  ⟨true, fun _ => true, fun _ => true, fun _ => true, fun _ => true⟩

/-- The Python dict comprehension `{item['id']: item for item in notion_items}`
followed by lookup: on duplicate ids the last occurrence wins. -/
def lookupNotionMap (items : List NotionPage) (nid : Nat) : Option NotionPage :=
  items.foldl (fun acc p => if p.id = nid then some p else acc) none

def processRevItem (cOk aOk dOk uOk : Bool) (items : List NotionPage)
    (w : World) (c : RevCounts) (g : CalEvent) :
    Except (World × RevCounts) (World × RevCounts) :=
  match g.notionId with
  | none =>
    let title := g.summary.getD "Untitled Event"
    match gcal_event_to_notion_date g with
    | none => .error (w, c)
    | some (sd?, ed?) =>
      match sd? with
      | some sd =>
        if sd ≠ "" then
          if cOk then
            let pid := w.nextId
            let w1 := { w with
              pages := w.pages ++ [create_notion_page_props title sd ed? pid],
              nextId := w.nextId + 1 }
            if aOk then
              .ok ({ w1 with events := w1.events.map (fun e =>
                      if e.id = g.id then { g with notionId := some pid } else e) },
                   { c with created := c.created + 1 })
            else .error (w1, c)
          else .ok (w, c)
        else .ok (w, c)
      | none => .ok (w, c)
  | some nid =>
    match lookupNotionMap items nid with
    | none =>
      if dOk then
        .ok ({ w with events := w.events.filter (fun e => e.id ≠ g.id) }, c)
      else .error (w, c)
    | some p =>
      let notion_title := extract_title_from_notion p
      let gcal_title := g.summary.getD "Untitled Event"
      match gcal_event_to_notion_date g with
      | none => .error (w, c)
      | some (gs?, ge?) =>
        match gs? with
        | some gs =>
          if gs ≠ "" ∧ gcal_title ≠ notion_title then
            if uOk then
              .ok ({ w with pages := w.pages.map (fun q =>
                      if q.id = nid then update_notion_page_props q gcal_title gs ge?
                      else q) },
                   { c with updated := c.updated + 1 })
            else .ok (w, c)
          else .ok (w, c)
        | none => .ok (w, c)

def revLoop (orc : RevOracle) (items : List NotionPage) :
    List CalEvent → Nat → World × RevCounts → World × RevCounts
  | [], _, wc => wc
  | g :: rest, i, wc =>
    match processRevItem (orc.createPageOk i) (orc.attachOk i) (orc.deleteOk i)
        (orc.pageUpdateOk i) items wc.1 wc.2 g with
    | .ok wc' => revLoop orc items rest (i + 1) wc'
    | .error wc' => wc'

def sync_calendar_to_notion (orc : RevOracle) (w : World)
    (items : List NotionPage) : World × RevCounts :=
  if orc.listOk then revLoop orc items w.events 0 (w, ⟨0, 0, 0⟩)
  else (w, ⟨0, 0, 0⟩)

/-! ## Driver (`main`) -/

structure RunCounts where
  n2c : FwdCounts
  c2n : RevCounts
deriving DecidableEq

/-- `get_notion_items`: on a non-200 response the function logs and
returns the empty list. -/
def get_notion_items (status : Nat) (results : List NotionPage) :
    List NotionPage :=
  if status = 200 then results else []

def runSyncWith (forc : FwdOracle) (rorc : RevOracle) (fetchStatus : Nat)
    (w : World) : World × RunCounts :=
  let notion_items := get_notion_items fetchStatus w.pages
  let notion_ids := notion_items.map (fun p => p.id)
  let wc1 := sync_notion_to_calendar forc w notion_items notion_ids
  let wc2 := sync_calendar_to_notion rorc wc1.1 notion_items
  (wc2.1, ⟨wc1.2, wc2.2⟩)

/-- One complete failure-free run of the Reconciliation Driver. -/
def runSync (w : World) : World × RunCounts := runSyncWith allOkFwd allOkRev 200 w

/-! ## Auxiliary definitions for stating pass-level properties -/

/-- Payload of the pass-level exception handler: both a normal completion
and a caught exception yield the accumulated world and counts. -/
def exPayload : Except (World × RevCounts) (World × RevCounts) → World × RevCounts
  | .ok wc => wc
  | .error wc => wc

/-- The reverse-pass loop with the exception status kept visible:
`.error` means an exception escaped an item and ended the loop. -/
def revLoopE (orc : RevOracle) (items : List NotionPage) :
    List CalEvent → Nat → World × RevCounts → Except (World × RevCounts) (World × RevCounts)
  | [], _, wc => .ok wc
  | g :: rest, i, wc =>
    match processRevItem (orc.createPageOk i) (orc.attachOk i) (orc.deleteOk i)
        (orc.pageUpdateOk i) items wc.1 wc.2 g with
    | .ok wc' => revLoopE orc items rest (i + 1) wc'
    | .error wc' => .error wc'

/-- A linked Event whose Record id is absent from the captured id set
(the deletion-sweep target). -/
def orphanB (ids : List Nat) (e : CalEvent) : Bool :=
  match e.notionId with
  | some nid => decide (nid ∉ ids)
  | none => false

/-- Whether the `i`-th forward item ends in the per-item exception handler:
either its date translation raises, or (when an event body was produced)
one of its calendar calls fails. -/
def fwdErrB (orc : FwdOracle) (i : Nat) (p : NotionPage) : Bool :=
  match notion_to_calendar_event p with
  | .exn => true
  | .skip => false
  | .ok _ => !orc.itemOk i

def fwdErrCount (orc : FwdOracle) : List NotionPage → Nat → Nat
  | [], _ => 0
  | p :: rest, i => (if fwdErrB orc i p then 1 else 0) + fwdErrCount orc rest (i + 1)

/-- Well-formed calendar state: distinct event ids, all below the
fresh-id source. -/
def eventsWF (w : World) : Prop :=
  (w.events.map (fun e => e.id)).Nodup ∧ ∀ e ∈ w.events, e.id < w.nextId

/-- The per-event relation preserved by forward-pass updates: identity and
link attribute unchanged. -/
def keyEq (e e' : CalEvent) : Prop := e'.id = e.id ∧ e'.notionId = e.notionId

/-! ## Concrete fixtures used to evaluate the model -/

def pageA : NotionPage := ⟨0, "u", some "A", some ⟨"2024-03-01", some "2024-03-05"⟩⟩

def pageRange : NotionPage := ⟨0, "u", some "T", some ⟨"2024-03-01", some "2024-03-03"⟩⟩

def eventLinkedA : CalEvent :=
  ⟨3, some "B", none, some (.gdate "2024-04-01"), some (.gdate "2024-04-03"), some 0⟩

def eventOrphan : CalEvent :=
  ⟨4, some "S", none, some (.gdate "2024-03-01"), none, some 5⟩

def eventNative : CalEvent :=
  ⟨6, some "N", none, some (.gdate "2024-03-02"), none, none⟩

/-- A Calendar API that fails the delete call issued for the first event
of the reverse pass and succeeds everywhere else. -/
def failDel0Oracle : RevOracle :=
  ⟨true, fun _ => true, fun _ => true, fun i => decide (i ≠ 0), fun _ => true⟩

/-! ## Well-behaved stores for the two-run analysis -/

/-- A day-granularity field the program can parse, advance and format
without raising: strict `YYYY-MM-DD` with a year away from `date.min` /
`date.max`. -/
def pyOkDay (s : String) : Bool :=
  match parseDate s with
  | some dd => decide (1000 ≤ dd.y) && decide (dd.y ≤ 9998)
  | none => false

/-- A Record the Forward Sync Pass handles without raising: either no
date (skipped) or a well-behaved day-granularity range. -/
def goodPage (p : NotionPage) : Bool :=
  match p.date with
  | none => true
  | some nd =>
    pyOkDay nd.start &&
    (match nd.stop with
     | none => true
     | some e => decide (e = "") || pyOkDay e)

/-- An Event that is exactly the forward image of the Record it is linked
to (the state the Forward Sync Pass leaves every linked Event in). -/
def syncedB (items : List NotionPage) (e : CalEvent) : Bool :=
  match e.notionId with
  | none => false
  | some nid =>
    match lookupNotionMap items nid with
    | none => false
    | some p =>
      match notion_to_calendar_event p with
      | .ok body => decide (e = mkSyncedEvent body e.id nid)
      | _ => false

/-- Stores over which the two-run behaviour is analysed: distinct
identifiers, every Record well-behaved, and every Event linked to exactly
one dated Record (no orphans, no calendar-native events). -/
def hygienic (w : World) : Prop :=
  eventsWF w
  ∧ (w.pages.map (fun p => p.id)).Nodup
  ∧ (w.events.filterMap (fun e => e.notionId)).Nodup
  ∧ (∀ p ∈ w.pages, goodPage p = true)
  ∧ ∀ e ∈ w.events, ∃ p ∈ w.pages, e.notionId = some p.id ∧ p.date.isSome = true

/-- A Record whose title was edited after its Event was last synced, with
no date set yet (the stale-title store refuting counter idempotence). -/
def pageLate : NotionPage := ⟨0, "u", some "New", none⟩

def eventStale : CalEvent :=
  ⟨1, some "Old", none, some (.gdate "2024-03-01"), some (.gdate "2024-03-03"), some 0⟩

def worldStale : World := ⟨[pageLate], [eventStale], 2⟩

def pageSkip : NotionPage := ⟨1, "v", some "S", none⟩

def eventLinked0 : CalEvent := ⟨2, some "X", none, some (.gdate "1"), none, some 0⟩

def worldC1 : World := ⟨[pageA, pageSkip], [eventLinked0], 3⟩

/-! ## Arithmetic facts about the date embedding -/

lemma daysInMonth_pos (y m : Nat) : 1 ≤ daysInMonth y m := by
  unfold daysInMonth
  split
  · split <;> omega
  · split <;> omega

lemma daysInMonth_le (y m : Nat) : daysInMonth y m ≤ 31 := by
  unfold daysInMonth
  split
  · split <;> omega
  · split <;> omega

lemma daysBeforeMonth_succ (y m : Nat) (h : 1 ≤ m) :
    daysBeforeMonth y (m + 1) = daysBeforeMonth y m + daysInMonth y m := by
  obtain ⟨k, rfl⟩ : ∃ k, m = k + 1 := ⟨m - 1, by omega⟩
  simp [daysBeforeMonth, List.range_succ, List.foldl_append]

lemma leapsBefore_succ (y : Nat) (h : 1 ≤ y) :
    leapsBefore y = leapsBefore (y - 1) + (if isLeap y then 1 else 0) := by
  obtain ⟨k, rfl⟩ : ∃ k, y = k + 1 := ⟨y - 1, by omega⟩
  have h4 := Nat.succ_div k 4
  have h100 := Nat.succ_div k 100
  have h400 := Nat.succ_div k 400
  have le1 : (k + 1) / 100 ≤ (k + 1) / 4 := Nat.div_le_div_left (by norm_num) (by norm_num)
  have le2 : k / 100 ≤ k / 4 := Nat.div_le_div_left (by norm_num) (by norm_num)
  simp only [leapsBefore, Nat.add_sub_cancel, isLeap, Bool.and_eq_true, Bool.or_eq_true,
    decide_eq_true_eq, bne_iff_ne, ne_eq]
  by_cases hb4 : (4 : Nat) ∣ (k + 1)
  all_goals by_cases hb100 : (100 : Nat) ∣ (k + 1)
  all_goals by_cases hb400 : (400 : Nat) ∣ (k + 1)
  all_goals first
    | rw [if_pos hb4] at h4
    | rw [if_neg hb4] at h4
  all_goals first
    | rw [if_pos hb100] at h100
    | rw [if_neg hb100] at h100
  all_goals first
    | rw [if_pos hb400] at h400
    | rw [if_neg hb400] at h400
  all_goals split
  all_goals omega

lemma toOrdinal_succ {dt dt' : Date} (hv : validDate dt = true)
    (h : succDate dt = some dt') : toOrdinal dt' = toOrdinal dt + 1 := by
  simp only [validDate, Bool.and_eq_true, decide_eq_true_eq] at hv
  obtain ⟨⟨⟨⟨⟨hy1, hy2⟩, hm1⟩, hm2⟩, hd1⟩, hd2⟩ := hv
  unfold succDate at h
  split at h
  · cases h
    simp only [toOrdinal]
    omega
  · split at h
    · cases h
      have hd : dt.d = daysInMonth dt.y dt.m := by omega
      have hdbm := daysBeforeMonth_succ dt.y dt.m (by omega)
      simp only [toOrdinal]
      omega
    · split at h
      · cases h
        have hm : dt.m = 12 := by omega
        have hdim : daysInMonth dt.y 12 = 31 := by simp [daysInMonth]
        have hd0 : dt.d = daysInMonth dt.y dt.m := by omega
        have hd : dt.d = 31 := by rw [hm] at hd0; omega
        have hdbm1 : daysBeforeMonth (dt.y + 1) 1 = 0 := rfl
        have hr : List.range 11 = [0, 1, 2, 3, 4, 5, 6, 7, 8, 9, 10] := rfl
        have hdbm12 : daysBeforeMonth dt.y 12 = 334 + (if isLeap dt.y then 1 else 0) := by
          cases hL : isLeap dt.y <;>
            simp [daysBeforeMonth, hr, daysInMonth, hL]
        have hlb := leapsBefore_succ dt.y (by omega)
        cases hL : isLeap dt.y <;>
          simp only [hL, Bool.false_eq_true, if_false, if_true] at hlb hdbm12 <;>
            simp only [toOrdinal, hm, hd, hdbm1, Nat.add_sub_cancel] <;> omega
      · cases h

lemma validDate_succ {dt dt' : Date} (hv : validDate dt = true)
    (h : succDate dt = some dt') : validDate dt' = true := by
  obtain ⟨Y, M, D⟩ := dt
  simp only [validDate, Bool.and_eq_true, decide_eq_true_eq] at hv ⊢
  obtain ⟨⟨⟨⟨⟨hy1, hy2⟩, hm1⟩, hm2⟩, hd1⟩, hd2⟩ := hv
  unfold succDate at h
  dsimp only at h hd2
  split at h
  · cases h
    dsimp only
    omega
  · split at h
    · cases h
      have hp := daysInMonth_pos Y (M + 1)
      dsimp only
      omega
    · split at h
      · cases h
        have hdim : daysInMonth (Y + 1) 1 = 31 := by simp [daysInMonth]
        dsimp only
        omega
      · cases h

lemma predDate_succ {dt dt' : Date} (hv : validDate dt = true)
    (h : predDate dt = some dt') :
    validDate dt' = true ∧ succDate dt' = some dt := by
  obtain ⟨Y, M, D⟩ := dt
  simp only [validDate, Bool.and_eq_true, decide_eq_true_eq] at hv
  obtain ⟨⟨⟨⟨⟨hy1, hy2⟩, hm1⟩, hm2⟩, hd1⟩, hd2⟩ := hv
  unfold predDate at h
  dsimp only at h hd2
  split at h
  · cases h
    constructor
    · simp only [validDate, Bool.and_eq_true, decide_eq_true_eq]
      omega
    · unfold succDate
      dsimp only
      rw [if_pos (by omega)]
      simp only [Option.some.injEq, Date.mk.injEq, true_and]
      omega
  · split at h
    · cases h
      have hpos := daysInMonth_pos Y (M - 1)
      constructor
      · simp only [validDate, Bool.and_eq_true, decide_eq_true_eq]
        omega
      · unfold succDate
        dsimp only
        rw [if_neg (by omega), if_pos (by omega)]
        simp only [Option.some.injEq, Date.mk.injEq, true_and]
        omega
    · split at h
      · cases h
        have hdim : daysInMonth (Y - 1) 12 = 31 := by simp [daysInMonth]
        constructor
        · simp only [validDate, Bool.and_eq_true, decide_eq_true_eq]
          omega
        · unfold succDate
          dsimp only
          rw [if_neg (by omega), if_neg (by omega), if_pos (by omega)]
          simp only [Option.some.injEq, Date.mk.injEq, true_and]
          omega
      · cases h

lemma toOrdinal_pred {dt dt' : Date} (hv : validDate dt = true)
    (h : predDate dt = some dt') : toOrdinal dt' + 1 = toOrdinal dt := by
  obtain ⟨hv', hs⟩ := predDate_succ hv h
  rw [toOrdinal_succ hv' hs]

lemma parseDateList_valid {l : List Char} {dt : Date}
    (h : parseDateList l = some dt) : validDate dt = true := by
  unfold parseDateList at h
  split at h
  · split at h
    · simp only [Option.bind_eq_bind, Option.bind_eq_some] at h
      obtain ⟨a, ha, b, hb, c, hc, d, hd, e, he, f, hf, g, hg, hq, hh, hfin⟩ := h
      split at hfin
      · cases hfin; assumption
      · cases hfin
    · cases h
  · cases h

lemma parseDate_valid {s : String} {dt : Date} (h : parseDate s = some dt) :
    validDate dt = true := parseDateList_valid h

lemma parseDate_length {s : String} {dt : Date} (h : parseDate s = some dt) :
    s.length = 10 := by
  unfold parseDate parseDateList at h
  split at h
  next l0 l1 l2 l3 l4 l5 l6 l7 l8 l9 heq =>
    have hl : s.length = s.toList.length := rfl
    rw [hl, heq]
    rfl
  next => cases h

lemma digitVal_digitChar {k : Nat} (h : k < 10) :
    digitVal (digitChar k) = some k := by
  interval_cases k <;> decide

lemma parseDate_formatDate {dt : Date} (hv : validDate dt = true)
    (hy : 1000 ≤ dt.y) : parseDate (formatDate dt) = some dt := by
  obtain ⟨Y, M, D⟩ := dt
  simp only [validDate, Bool.and_eq_true, decide_eq_true_eq] at hv
  obtain ⟨⟨⟨⟨⟨hy1, hy2⟩, hm1⟩, hm2⟩, hd1⟩, hd2⟩ := hv
  simp only at hy
  have hnat : natDigits Y = [digitChar (Y / 1000 % 10), digitChar (Y / 100 % 10),
      digitChar (Y / 10 % 10), digitChar (Y % 10)] := by
    unfold natDigits
    rw [if_neg (by omega), if_neg (by omega), if_neg (by omega)]
  have htl : (formatDate ⟨Y, M, D⟩).toList
      = [digitChar (Y / 1000 % 10), digitChar (Y / 100 % 10), digitChar (Y / 10 % 10),
         digitChar (Y % 10), '-', digitChar (M / 10 % 10), digitChar (M % 10), '-',
         digitChar (D / 10 % 10), digitChar (D % 10)] := by
    simp only [formatDate, twoDigits, hnat]
    rfl
  have hle := daysInMonth_le Y M
  unfold parseDate
  rw [htl]
  simp only [parseDateList]
  rw [if_pos (⟨trivial, trivial⟩ : True ∧ True)]
  rw [digitVal_digitChar (Nat.mod_lt _ (by norm_num)),
      digitVal_digitChar (Nat.mod_lt _ (by norm_num)),
      digitVal_digitChar (Nat.mod_lt _ (by norm_num)),
      digitVal_digitChar (Nat.mod_lt _ (by norm_num)),
      digitVal_digitChar (Nat.mod_lt _ (by norm_num)),
      digitVal_digitChar (Nat.mod_lt _ (by norm_num)),
      digitVal_digitChar (Nat.mod_lt _ (by norm_num)),
      digitVal_digitChar (Nat.mod_lt _ (by norm_num))]
  simp only [Option.bind_eq_bind, Option.some_bind]
  have hrec : (⟨Y / 1000 % 10 * 1000 + Y / 100 % 10 * 100 + Y / 10 % 10 * 10 + Y % 10,
      M / 10 % 10 * 10 + M % 10, D / 10 % 10 * 10 + D % 10⟩ : Date) = ⟨Y, M, D⟩ := by
    simp only [Date.mk.injEq]
    omega
  rw [hrec]
  rw [if_pos]
  simp only [validDate, Bool.and_eq_true, decide_eq_true_eq]
  exact ⟨⟨⟨⟨⟨hy1, hy2⟩, hm1⟩, hm2⟩, hd1⟩, hd2⟩

/-! ## Facts about the timestamp embedding -/

def wfDT (t : DateTimeVal) : Prop :=
  validDate t.date = true ∧ t.hh ≤ 23 ∧ t.mm ≤ 59 ∧ t.ss ≤ 59 ∧
    ∀ off ∈ t.tz, off.natAbs ≤ 1439

lemma parseTwo_digitChar {a b : Nat} (ha : a < 10) (hb : b < 10) :
    parseTwo (digitChar a) (digitChar b) = some (a * 10 + b) := by
  unfold parseTwo
  rw [digitVal_digitChar ha, digitVal_digitChar hb]
  rfl

lemma parseTzPart_bound {l : List Char} {tz : Option Int}
    (h : parseTzPart l = some tz) : ∀ off ∈ tz, off.natAbs ≤ 1439 := by
  unfold parseTzPart at h
  split at h
  · cases h
    intro off hoff
    cases hoff
  · split at h
    · simp only [Option.bind_eq_bind, Option.bind_eq_some] at h
      obtain ⟨oh, hoh, om, hom, hfin⟩ := h
      split at hfin
      · cases hfin
        intro off hoff
        rw [Option.mem_def, Option.some.injEq] at hoff
        subst hoff
        rename_i hb
        split
        · rw [Int.natAbs_neg]
          omega
        · omega
      · cases hfin
    · cases h
  · cases h

lemma optBind_some_inv {α β : Type} {o : Option α} {f : α → Option β} {b : β}
    (h : o >>= f = some b) : ∃ a, o = some a ∧ f a = some b := by
  cases o with
  | none => cases h
  | some a => exact ⟨a, rfl, h⟩

lemma parseIsoDateTime_wf {s : String} {t : DateTimeVal}
    (h : parseIsoDateTime s = some t) : wfDT t := by
  unfold parseIsoDateTime at h
  split at h
  · obtain ⟨a, ha, h⟩ := optBind_some_inv h
    obtain ⟨b, hb, h⟩ := optBind_some_inv h
    obtain ⟨c, hc, h⟩ := optBind_some_inv h
    obtain ⟨d, hd, h⟩ := optBind_some_inv h
    obtain ⟨e, he, h⟩ := optBind_some_inv h
    obtain ⟨f, hf, h⟩ := optBind_some_inv h
    obtain ⟨g, hg, h⟩ := optBind_some_inv h
    obtain ⟨q, hq, h⟩ := optBind_some_inv h
    obtain ⟨hh, hhh, h⟩ := optBind_some_inv h
    obtain ⟨mi, hmi, h⟩ := optBind_some_inv h
    split at h
    · rename_i hcond
      split at h
      · obtain ⟨ss, hss, h⟩ := optBind_some_inv h
        obtain ⟨tz, htz, h⟩ := optBind_some_inv h
        split at h
        · cases h
          exact ⟨hcond.1, hcond.2.1, hcond.2.2, by dsimp only; omega, parseTzPart_bound htz⟩
        · cases h
      · obtain ⟨tz, htz, h⟩ := optBind_some_inv h
        cases h
        exact ⟨hcond.1, hcond.2.1, hcond.2.2, by dsimp only; omega, parseTzPart_bound htz⟩
    · cases h
  · cases h

lemma parseTzPart_tzChars {tz : Option Int} (hb : ∀ off ∈ tz, off.natAbs ≤ 1439) :
    parseTzPart (tzChars tz) = some tz := by
  cases tz with
  | none => rfl
  | some off =>
    have hoff := hb off rfl
    have h1 : off.natAbs / 60 / 10 % 10 < 10 := Nat.mod_lt _ (by norm_num)
    have h2 : off.natAbs / 60 % 10 < 10 := Nat.mod_lt _ (by norm_num)
    have h3 : off.natAbs % 60 / 10 % 10 < 10 := Nat.mod_lt _ (by norm_num)
    have h4 : off.natAbs % 60 % 10 < 10 := Nat.mod_lt _ (by norm_num)
    have e1 : off.natAbs / 60 / 10 % 10 * 10 + off.natAbs / 60 % 10 = off.natAbs / 60 := by
      omega
    have e2 : off.natAbs % 60 / 10 % 10 * 10 + off.natAbs % 60 % 10 = off.natAbs % 60 := by
      omega
    have emins : ((off.natAbs / 60 : Nat) : Int) * 60 + ((off.natAbs % 60 : Nat) : Int)
        = (off.natAbs : Int) := by
      push_cast
      omega
    unfold tzChars twoDigits
    dsimp only
    by_cases hneg : off < 0
    · rw [if_pos hneg]
      simp only [List.cons_append, List.nil_append]
      simp only [parseTzPart]
      rw [if_pos (Or.inr trivial)]
      simp only [Option.bind_eq_bind, parseTwo_digitChar h1 h2, parseTwo_digitChar h3 h4,
        Option.some_bind, e1, e2]
      rw [if_pos (by omega)]
      simp only [Option.pure_def, Option.some.injEq]
      rw [if_pos trivial]
      rw [emins]
      omega
    · rw [if_neg hneg]
      simp only [List.cons_append, List.nil_append]
      simp only [parseTzPart]
      rw [if_pos (Or.inl trivial)]
      simp only [Option.bind_eq_bind, parseTwo_digitChar h1 h2, parseTwo_digitChar h3 h4,
        Option.some_bind, e1, e2]
      rw [if_pos (by omega)]
      simp only [Option.pure_def, Option.some.injEq]
      rw [if_neg (by decide)]
      rw [emins]
      omega

lemma parseIso_isoformatDT {t : DateTimeVal} (h : wfDT t) :
    parseIsoDateTime (isoformatDT t) = some t := by
  obtain ⟨⟨Y, M, D⟩, hh, mm, ss, tz⟩ := t
  obtain ⟨hvd, hhh, hmm, hss, htz⟩ := h
  dsimp only at hvd hhh hmm hss htz
  have hvd' := hvd
  simp only [validDate, Bool.and_eq_true, decide_eq_true_eq] at hvd'
  have hle := daysInMonth_le Y M
  have htl : (isoformatDT ⟨⟨Y, M, D⟩, hh, mm, ss, tz⟩).toList
      = digitChar (Y / 1000 % 10) :: digitChar (Y / 100 % 10) :: digitChar (Y / 10 % 10)
        :: digitChar (Y % 10) :: '-' :: digitChar (M / 10 % 10) :: digitChar (M % 10)
        :: '-' :: digitChar (D / 10 % 10) :: digitChar (D % 10) :: 'T'
        :: digitChar (hh / 10 % 10) :: digitChar (hh % 10) :: ':'
        :: digitChar (mm / 10 % 10) :: digitChar (mm % 10) :: ':'
        :: digitChar (ss / 10 % 10) :: digitChar (ss % 10) :: tzChars tz := by
    simp only [isoformatDT, fourDigits, twoDigits]
    rfl
  have d1 : Y / 1000 % 10 < 10 := Nat.mod_lt _ (by norm_num)
  have d2 : Y / 100 % 10 < 10 := Nat.mod_lt _ (by norm_num)
  have d3 : Y / 10 % 10 < 10 := Nat.mod_lt _ (by norm_num)
  have d4 : Y % 10 < 10 := Nat.mod_lt _ (by norm_num)
  have d5 : M / 10 % 10 < 10 := Nat.mod_lt _ (by norm_num)
  have d6 : M % 10 < 10 := Nat.mod_lt _ (by norm_num)
  have d7 : D / 10 % 10 < 10 := Nat.mod_lt _ (by norm_num)
  have d8 : D % 10 < 10 := Nat.mod_lt _ (by norm_num)
  have d9 : hh / 10 % 10 < 10 := Nat.mod_lt _ (by norm_num)
  have d10 : hh % 10 < 10 := Nat.mod_lt _ (by norm_num)
  have d11 : mm / 10 % 10 < 10 := Nat.mod_lt _ (by norm_num)
  have d12 : mm % 10 < 10 := Nat.mod_lt _ (by norm_num)
  have d13 : ss / 10 % 10 < 10 := Nat.mod_lt _ (by norm_num)
  have d14 : ss % 10 < 10 := Nat.mod_lt _ (by norm_num)
  have eY : Y / 1000 % 10 * 1000 + Y / 100 % 10 * 100 + Y / 10 % 10 * 10 + Y % 10 = Y := by
    omega
  have eM : M / 10 % 10 * 10 + M % 10 = M := by omega
  have eD : D / 10 % 10 * 10 + D % 10 = D := by omega
  have eH : hh / 10 % 10 * 10 + hh % 10 = hh := by omega
  have eN : mm / 10 % 10 * 10 + mm % 10 = mm := by omega
  have eS : ss / 10 % 10 * 10 + ss % 10 = ss := by omega
  unfold parseIsoDateTime
  rw [htl]
  simp only [Option.bind_eq_bind, digitVal_digitChar d1, digitVal_digitChar d2,
    digitVal_digitChar d3, digitVal_digitChar d4, digitVal_digitChar d5,
    digitVal_digitChar d6, digitVal_digitChar d7, digitVal_digitChar d8,
    parseTwo_digitChar d9 d10, parseTwo_digitChar d11 d12, parseTwo_digitChar d13 d14,
    Option.some_bind, eY, eM, eD, eH, eN, eS]
  rw [if_pos ⟨hvd, hhh, hmm⟩]
  simp only [parseTzPart_tzChars htz, Option.some_bind]
  rw [if_pos hss]
  rfl

lemma addOneHour_wf {t t2 : DateTimeVal} (h : wfDT t) (ha : addOneHour t = some t2) :
    wfDT t2 := by
  obtain ⟨hvd, hhh, hmm, hss, htz⟩ := h
  unfold addOneHour at ha
  split at ha
  · cases ha
    exact ⟨hvd, by dsimp only; omega, hmm, hss, htz⟩
  · obtain ⟨d2, hd2, ha⟩ : ∃ d2, succDate t.date = some d2
        ∧ some { t with date := d2, hh := 0 } = some t2 := by
      cases hsd : succDate t.date with
      | none => rw [hsd] at ha; cases ha
      | some d2 => rw [hsd] at ha; exact ⟨d2, rfl, ha⟩
    cases ha
    exact ⟨validDate_succ hvd hd2, by dsimp only; omega, hmm, hss, htz⟩

lemma addOneHour_instant {t t2 : DateTimeVal} (hv : validDate t.date = true)
    (hhb : t.hh ≤ 23) (ha : addOneHour t = some t2) :
    instantSeconds t2 = instantSeconds t + 3600 := by
  unfold addOneHour at ha
  split at ha
  · cases ha
    simp only [instantSeconds]
    push_cast
    ring
  · rename_i hlt
    obtain ⟨d2, hd2, ha⟩ : ∃ d2, succDate t.date = some d2
        ∧ some { t with date := d2, hh := 0 } = some t2 := by
      cases hsd : succDate t.date with
      | none => rw [hsd] at ha; cases ha
      | some d2 => rw [hsd] at ha; exact ⟨d2, rfl, ha⟩
    cases ha
    have hord := toOrdinal_succ hv hd2
    have h23 : t.hh = 23 := by omega
    simp only [instantSeconds]
    rw [hord, h23]
    push_cast
    ring

/-! ## Reverse-pass loop lemmas -/

lemma processRevItem_deleted (cOk aOk dOk uOk : Bool) (items : List NotionPage)
    (w : World) (c : RevCounts) (g : CalEvent) :
    (exPayload (processRevItem cOk aOk dOk uOk items w c g)).2.deleted = c.deleted := by
  unfold processRevItem
  repeat' split
  all_goals try (dsimp only; repeat' split)
  all_goals rfl

lemma processRevItem_error_counts {cOk aOk dOk uOk : Bool} {items : List NotionPage}
    {w : World} {c : RevCounts} {g : CalEvent} {wc : World × RevCounts}
    (h : processRevItem cOk aOk dOk uOk items w c g = .error wc) : wc.2 = c := by
  unfold processRevItem at h
  repeat' split at h
  all_goals try (dsimp only at h; repeat' split at h)
  all_goals first
    | (cases h; rfl)
    | cases h

lemma revLoop_eq_payload (orc : RevOracle) (items : List NotionPage) :
    ∀ (evs : List CalEvent) (i : Nat) (wc : World × RevCounts),
      revLoop orc items evs i wc = exPayload (revLoopE orc items evs i wc)
  | [], _, _ => rfl
  | g :: rest, i, wc => by
    unfold revLoop revLoopE
    cases hp : processRevItem (orc.createPageOk i) (orc.attachOk i) (orc.deleteOk i)
        (orc.pageUpdateOk i) items wc.1 wc.2 g with
    | ok wc' => exact revLoop_eq_payload orc items rest (i + 1) wc'
    | error wc' => rfl

lemma revLoopE_cons (orc : RevOracle) (items : List NotionPage) (g : CalEvent)
    (rest : List CalEvent) (i : Nat) (wc : World × RevCounts) :
    revLoopE orc items (g :: rest) i wc
      = match processRevItem (orc.createPageOk i) (orc.attachOk i) (orc.deleteOk i)
          (orc.pageUpdateOk i) items wc.1 wc.2 g with
        | .ok wc' => revLoopE orc items rest (i + 1) wc'
        | .error wc' => .error wc' := rfl

lemma revLoopE_append (orc : RevOracle) (items : List NotionPage) :
    ∀ (evs1 rest : List CalEvent) (i : Nat) (wc wc' : World × RevCounts),
      revLoopE orc items evs1 i wc = .ok wc' →
      revLoopE orc items (evs1 ++ rest) i wc = revLoopE orc items rest (i + evs1.length) wc'
  | [], rest, i, wc, wc', h => by
    cases h
    rfl
  | g :: evs1, rest, i, wc, wc', h => by
    rw [revLoopE_cons] at h
    rw [List.cons_append, revLoopE_cons]
    cases hp : processRevItem (orc.createPageOk i) (orc.attachOk i) (orc.deleteOk i)
        (orc.pageUpdateOk i) items wc.1 wc.2 g with
    | ok wc2 =>
      rw [hp] at h
      dsimp only at h
      dsimp only
      rw [revLoopE_append orc items evs1 rest (i + 1) wc2 wc' h]
      congr 1
      simp only [List.length_cons]
      omega
    | error wc2 =>
      rw [hp] at h
      dsimp only at h
      cases h

lemma revLoop_deleted (orc : RevOracle) (items : List NotionPage) :
    ∀ (evs : List CalEvent) (i : Nat) (w : World) (c : RevCounts),
      (revLoop orc items evs i (w, c)).2.deleted = c.deleted
  | [], _, _, _ => rfl
  | g :: rest, i, w, c => by
    unfold revLoop
    cases hp : processRevItem (orc.createPageOk i) (orc.attachOk i) (orc.deleteOk i)
        (orc.pageUpdateOk i) items w c g with
    | ok wc' =>
      have hd : wc'.2.deleted = c.deleted := by
        have := processRevItem_deleted (orc.createPageOk i) (orc.attachOk i) (orc.deleteOk i)
          (orc.pageUpdateOk i) items w c g
        rw [hp] at this
        exact this
      have := revLoop_deleted orc items rest (i + 1) wc'.1 wc'.2
      rw [← hd]
      exact this
    | error wc' =>
      have := processRevItem_deleted (orc.createPageOk i) (orc.attachOk i) (orc.deleteOk i)
        (orc.pageUpdateOk i) items w c g
      rw [hp] at this
      exact this

/-! ## Forward-pass loop lemmas -/

lemma fwdItems_cons (orc : FwdOracle) (p : NotionPage) (rest : List NotionPage)
    (i : Nat) (wc : World × FwdCounts) :
    fwdItems orc (p :: rest) i wc
      = fwdItems orc rest (i + 1) (processFwdItem (orc.itemOk i) wc p) := rfl

lemma fwdSweepLoop_cons (orc : FwdOracle) (ids : List Nat) (g : CalEvent)
    (rest : List CalEvent) (i : Nat) (wc : World × FwdCounts) :
    fwdSweepLoop orc ids (g :: rest) i wc
      = match g.notionId with
        | some nid =>
          if nid ∈ ids then fwdSweepLoop orc ids rest (i + 1) (wc.1, wc.2)
          else if orc.sweepDelOk i then
            fwdSweepLoop orc ids rest (i + 1)
              ({ wc.1 with events := wc.1.events.filter (fun e => e.id ≠ g.id) },
               { wc.2 with deleted := wc.2.deleted + 1 })
          else (wc.1, wc.2)
        | none => fwdSweepLoop orc ids rest (i + 1) (wc.1, wc.2) := rfl

lemma fwdSweepLoop_ok (ids : List Nat) :
    ∀ (l : List CalEvent) (i : Nat) (w : World) (c : FwdCounts),
      fwdSweepLoop allOkFwd ids l i (w, c)
        = ({ w with events := w.events.filter
                      (fun e => !((l.filter (orphanB ids)).map (fun g => g.id)).contains e.id) },
           { c with deleted := c.deleted + (l.filter (orphanB ids)).length })
  | [], i, w, c => by
    simp only [List.filter_nil, List.map_nil, List.length_nil, Nat.add_zero]
    have he : w.events.filter (fun e => !(([] : List Nat).contains e.id)) = w.events := by
      simp
    rw [he]
    rfl
  | g :: rest, i, w, c => by
    rw [fwdSweepLoop_cons]
    cases hg : g.notionId with
    | some nid =>
      have horph : orphanB ids g = decide (nid ∉ ids) := by
        unfold orphanB
        rw [hg]
      by_cases hmem : nid ∈ ids
      · dsimp only
        rw [if_pos hmem]
        rw [fwdSweepLoop_ok ids rest (i + 1) w c]
        rw [List.filter_cons_of_neg (by simp [horph, hmem])]
      · dsimp only
        rw [if_neg hmem, if_pos (show allOkFwd.sweepDelOk i = true from rfl)]
        rw [fwdSweepLoop_ok ids rest (i + 1)
          { w with events := w.events.filter (fun e => e.id ≠ g.id) }
          { c with deleted := c.deleted + 1 }]
        rw [List.filter_cons_of_pos (by simp [horph, hmem])]
        dsimp only
        have hE : (w.events.filter (fun e => decide (e.id ≠ g.id))).filter
              (fun e => !((rest.filter (orphanB ids)).map (fun g => g.id)).contains e.id)
            = w.events.filter
              (fun e => !((g.id :: (rest.filter (orphanB ids)).map (fun g => g.id)).contains
                 e.id)) := by
          rw [List.filter_filter]
          refine List.filter_congr ?_
          intro a ha
          by_cases hx : a.id = g.id <;> simp [hx, List.contains_cons]
        rw [List.map_cons] at *
        rw [hE]
        have hD : c.deleted + 1 + (rest.filter (orphanB ids)).length
            = c.deleted + ((rest.filter (orphanB ids)).length + 1) := by omega
        rw [List.length_cons, hD]
    | none =>
      dsimp only
      rw [fwdSweepLoop_ok ids rest (i + 1) w c]
      rw [List.filter_cons_of_neg (by simp [orphanB, hg])]

lemma processFwdItem_sum (ok : Bool) (wc : World × FwdCounts) (p : NotionPage) :
    (processFwdItem ok wc p).2.created + (processFwdItem ok wc p).2.updated
      + (processFwdItem ok wc p).2.skipped
      + (if (match notion_to_calendar_event p with
             | .exn => true
             | .skip => false
             | .ok _ => !ok) then 1 else 0)
    = wc.2.created + wc.2.updated + wc.2.skipped + 1 := by
  unfold processFwdItem
  cases notion_to_calendar_event p <;> (try cases ok) <;> dsimp only <;> repeat' split
  all_goals try simp_all
  all_goals omega

lemma processFwdItem_deleted (ok : Bool) (wc : World × FwdCounts) (p : NotionPage) :
    (processFwdItem ok wc p).2.deleted = wc.2.deleted := by
  unfold processFwdItem
  dsimp only
  repeat' split
  all_goals rfl

lemma fwdItems_sum (orc : FwdOracle) :
    ∀ (items : List NotionPage) (i : Nat) (wc : World × FwdCounts),
      (fwdItems orc items i wc).2.created + (fwdItems orc items i wc).2.updated
          + (fwdItems orc items i wc).2.skipped + fwdErrCount orc items i
        = wc.2.created + wc.2.updated + wc.2.skipped + items.length
  | [], i, wc => by simp [fwdItems, fwdErrCount]
  | p :: rest, i, wc => by
    rw [fwdItems_cons]
    have hstep := processFwdItem_sum (orc.itemOk i) wc p
    have hrec := fwdItems_sum orc rest (i + 1) (processFwdItem (orc.itemOk i) wc p)
    unfold fwdErrCount fwdErrB
    simp only [List.length_cons]
    omega

lemma fwdItems_deleted (orc : FwdOracle) :
    ∀ (items : List NotionPage) (i : Nat) (wc : World × FwdCounts),
      (fwdItems orc items i wc).2.deleted = wc.2.deleted
  | [], _, _ => rfl
  | p :: rest, i, wc => by
    rw [fwdItems_cons]
    rw [fwdItems_deleted orc rest (i + 1) (processFwdItem (orc.itemOk i) wc p)]
    exact processFwdItem_deleted (orc.itemOk i) wc p

lemma fwdSweepLoop_cus (orc : FwdOracle) (ids : List Nat) :
    ∀ (l : List CalEvent) (i : Nat) (wc : World × FwdCounts),
      (fwdSweepLoop orc ids l i wc).2.created = wc.2.created
      ∧ (fwdSweepLoop orc ids l i wc).2.updated = wc.2.updated
      ∧ (fwdSweepLoop orc ids l i wc).2.skipped = wc.2.skipped
  | [], _, _ => ⟨rfl, rfl, rfl⟩
  | g :: rest, i, wc => by
    rw [fwdSweepLoop_cons]
    cases hg : g.notionId with
    | some nid =>
      dsimp only
      by_cases hmem : nid ∈ ids
      · rw [if_pos hmem]
        exact fwdSweepLoop_cus orc ids rest (i + 1) (wc.1, wc.2)
      · rw [if_neg hmem]
        by_cases hok : orc.sweepDelOk i = true
        · rw [if_pos hok]
          exact fwdSweepLoop_cus orc ids rest (i + 1) _
        · rw [if_neg hok]
          exact ⟨rfl, rfl, rfl⟩
    | none =>
      dsimp only
      exact fwdSweepLoop_cus orc ids rest (i + 1) (wc.1, wc.2)

/-! ## Forward item-loop event characterization -/

lemma nodup_id_inj {l : List CalEvent} (h : (l.map (fun e => e.id)).Nodup)
    {e e' : CalEvent} (he : e ∈ l) (he' : e' ∈ l) (hid : e.id = e'.id) : e = e' := by
  induction l with
  | nil => cases he
  | cons a rest ih =>
    rw [List.map_cons, List.nodup_cons] at h
    rcases List.mem_cons.mp he with rfl | he2
    · rcases List.mem_cons.mp he' with rfl | he2'
      · rfl
      · exact absurd (hid ▸ List.mem_map_of_mem (fun e => e.id) he2') h.1
    · rcases List.mem_cons.mp he' with rfl | he2'
      · exact absurd (hid ▸ List.mem_map_of_mem (fun e => e.id) he2) h.1
      · exact ih h.2 he2 he2'

lemma forall2_keyEq_trans : ∀ {a b c : List CalEvent},
    List.Forall₂ keyEq a b → List.Forall₂ keyEq b c → List.Forall₂ keyEq a c
  | [], [], [], _, _ => List.Forall₂.nil
  | x :: xs, y :: ys, z :: zs, List.Forall₂.cons h1 t1, List.Forall₂.cons h2 t2 =>
    List.Forall₂.cons ⟨h2.1.trans h1.1, h2.2.trans h1.2⟩ (forall2_keyEq_trans t1 t2)

lemma forall2_keyEq_self {l : List CalEvent} : List.Forall₂ keyEq l l := by
  induction l with
  | nil => exact List.Forall₂.nil
  | cons a rest ih => exact List.Forall₂.cons ⟨rfl, rfl⟩ ih

lemma forall2_mem_right {r : CalEvent → CalEvent → Prop} :
    ∀ {l l' : List CalEvent}, List.Forall₂ r l l' → ∀ e' ∈ l', ∃ e ∈ l, r e e'
  | [], [], List.Forall₂.nil, e', he' => by cases he'
  | x :: xs, y :: ys, List.Forall₂.cons h t, e', he' => by
    rcases List.mem_cons.mp he' with rfl | he2
    · exact ⟨x, List.mem_cons_self x xs, h⟩
    · obtain ⟨e, hem, hr⟩ := forall2_mem_right t e' he2
      exact ⟨e, List.mem_cons_of_mem x hem, hr⟩

lemma forall2_keyEq_map {l : List CalEvent} {f : CalEvent → CalEvent}
    (h : ∀ e ∈ l, keyEq e (f e)) : List.Forall₂ keyEq l (l.map f) := by
  induction l with
  | nil => exact List.Forall₂.nil
  | cons a rest ih =>
    rw [List.map_cons]
    exact List.Forall₂.cons (h a (List.mem_cons_self a rest))
      (ih fun e he => h e (List.mem_cons_of_mem a he))

lemma forall2_append_split {r : CalEvent → CalEvent → Prop} :
    ∀ (l1 : List CalEvent) {l2 l : List CalEvent}, List.Forall₂ r (l1 ++ l2) l →
      ∃ m1 m2, l = m1 ++ m2 ∧ List.Forall₂ r l1 m1 ∧ List.Forall₂ r l2 m2 := by
  intro l1
  induction l1 with
  | nil =>
    intro l2 l h
    exact ⟨[], l, rfl, List.Forall₂.nil, h⟩
  | cons a t ih =>
    intro l2 l h
    rw [List.cons_append] at h
    cases h with
    | cons hr ht =>
      obtain ⟨m1, m2, rfl, h1, h2⟩ := ih ht
      exact ⟨_ :: m1, m2, rfl, List.Forall₂.cons hr h1, h2⟩

lemma processFwdItem_step (ok : Bool) (wc : World × FwdCounts) (p : NotionPage)
    (hwf : eventsWF wc.1) :
    (processFwdItem ok wc p).1.pages = wc.1.pages
    ∧ wc.1.nextId ≤ (processFwdItem ok wc p).1.nextId
    ∧ eventsWF (processFwdItem ok wc p).1
    ∧ ∃ core app, (processFwdItem ok wc p).1.events = core ++ app
      ∧ List.Forall₂ keyEq wc.1.events core
      ∧ ∀ e ∈ app, wc.1.nextId ≤ e.id ∧ e.notionId = some p.id := by
  unfold processFwdItem
  dsimp only
  cases notion_to_calendar_event p with
  | skip =>
    exact ⟨rfl, Nat.le_refl _, hwf,
      wc.1.events, [], (List.append_nil _).symm, forall2_keyEq_self, by simp⟩
  | exn =>
    exact ⟨rfl, Nat.le_refl _, hwf,
      wc.1.events, [], (List.append_nil _).symm, forall2_keyEq_self, by simp⟩
  | ok body =>
    dsimp only
    by_cases hok : ok = true
    case neg =>
      rw [if_neg hok]
      exact ⟨rfl, Nat.le_refl _, hwf,
        wc.1.events, [], (List.append_nil _).symm, forall2_keyEq_self, by simp⟩
    case pos =>
      rw [if_pos hok]
      cases hfil : wc.1.events.filter (fun e => e.notionId = some p.id) with
      | nil =>
        dsimp only
        refine ⟨rfl, by omega, ⟨?_, ?_⟩,
          wc.1.events, [mkSyncedEvent body wc.1.nextId p.id], rfl, forall2_keyEq_self, ?_⟩
        · rw [List.map_append, List.map_cons, List.map_nil]
          rw [List.nodup_append]
          refine ⟨hwf.1, List.nodup_singleton _, ?_⟩
          intro a ha hb
          rcases List.mem_map.mp ha with ⟨e, he, rfl⟩
          have hb' := List.mem_singleton.mp hb
          have := hwf.2 e he
          simp only [mkSyncedEvent] at hb'
          omega
        · intro e he
          rcases List.mem_append.mp he with he2 | he2
          · have := hwf.2 e he2
            simp only
            omega
          · rcases List.mem_singleton.mp he2 with rfl
            simp only [mkSyncedEvent]
            omega
        · intro e he
          rcases List.mem_singleton.mp he with rfl
          exact ⟨Nat.le_refl _, rfl⟩
      | cons e0 tail =>
        dsimp only
        have he0mem : e0 ∈ wc.1.events := by
          have : e0 ∈ wc.1.events.filter (fun e => e.notionId = some p.id) := by
            rw [hfil]
            exact List.mem_cons_self _ _
          exact (List.mem_filter.mp this).1
        have he0link : e0.notionId = some p.id := by
          have : e0 ∈ wc.1.events.filter (fun e => e.notionId = some p.id) := by
            rw [hfil]
            exact List.mem_cons_self _ _
          have h2 := (List.mem_filter.mp this).2
          exact of_decide_eq_true h2
        have hidpres : ∀ e : CalEvent, (if e.id = e0.id then mkSyncedEvent body e0.id p.id
            else e).id = e.id := by
          intro e
          by_cases hx : e.id = e0.id
          · rw [if_pos hx]
            show e0.id = e.id
            exact hx.symm
          · rw [if_neg hx]
        have hids : (wc.1.events.map (fun e => if e.id = e0.id
              then mkSyncedEvent body e0.id p.id else e)).map (fun e => e.id)
            = wc.1.events.map (fun e => e.id) := by
          rw [List.map_map]
          refine List.map_congr_left ?_
          intro e _
          exact hidpres e
        refine ⟨rfl, Nat.le_refl _, ⟨by rw [hids]; exact hwf.1, ?_⟩,
          wc.1.events.map (fun e => if e.id = e0.id then mkSyncedEvent body e0.id p.id else e),
          [], (List.append_nil _).symm, ?_, by simp⟩
        · intro e he
          rcases List.mem_map.mp he with ⟨e1, he1, rfl⟩
          have hlt := hwf.2 e1 he1
          show (if e1.id = e0.id then mkSyncedEvent body e0.id p.id else e1).id < wc.1.nextId
          rw [hidpres e1]
          exact hlt
        · have : ∀ e ∈ wc.1.events, keyEq e (if e.id = e0.id
              then mkSyncedEvent body e0.id p.id else e) := by
            intro e he
            by_cases hx : e.id = e0.id
            · have : e = e0 := nodup_id_inj hwf.1 he he0mem hx
              subst this
              rw [if_pos hx]
              exact ⟨rfl, he0link.symm⟩
            · rw [if_neg hx]
              exact ⟨rfl, rfl⟩
          exact forall2_keyEq_map this

lemma fwdItems_events (orc : FwdOracle) :
    ∀ (items : List NotionPage) (idsSup : List Nat) (i : Nat) (wc : World × FwdCounts),
      (∀ p ∈ items, p.id ∈ idsSup) →
      eventsWF wc.1 →
      (fwdItems orc items i wc).1.pages = wc.1.pages
      ∧ wc.1.nextId ≤ (fwdItems orc items i wc).1.nextId
      ∧ eventsWF (fwdItems orc items i wc).1
      ∧ ∃ core app, (fwdItems orc items i wc).1.events = core ++ app
        ∧ List.Forall₂ keyEq wc.1.events core
        ∧ ∀ e ∈ app, wc.1.nextId ≤ e.id ∧ ∃ nid, e.notionId = some nid ∧ nid ∈ idsSup
  | [], idsSup, i, wc, _, hwf =>
    ⟨rfl, Nat.le_refl _, hwf, wc.1.events, [], (List.append_nil _).symm,
      forall2_keyEq_self, by simp⟩
  | p :: rest, idsSup, i, wc, hsup, hwf => by
    rw [fwdItems_cons]
    obtain ⟨hp1, hn1, hwf1, core1, app1, hev1, hrel1, happ1⟩ :=
      processFwdItem_step (orc.itemOk i) wc p hwf
    obtain ⟨hp2, hn2, hwf2, core2, app2, hev2, hrel2, happ2⟩ :=
      fwdItems_events orc rest idsSup (i + 1) (processFwdItem (orc.itemOk i) wc p)
        (fun q hq => hsup q (List.mem_cons_of_mem p hq)) hwf1
    refine ⟨hp2.trans hp1, hn1.trans hn2, hwf2, ?_⟩
    rw [hev1] at hrel2
    rcases forall2_append_split core1 hrel2 with ⟨cA, cB, hsplit, hrelA, hrelB⟩
    refine ⟨cA, cB ++ app2, ?_, forall2_keyEq_trans hrel1 hrelA, ?_⟩
    · rw [hev2, hsplit, List.append_assoc]
    · intro e he
      rcases List.mem_append.mp he with he2 | he2
      · obtain ⟨e1, he1, hkey⟩ := forall2_mem_right hrelB e he2
        obtain ⟨hle, hlink⟩ := happ1 e1 he1
        exact ⟨hkey.1 ▸ hle, p.id, hkey.2 ▸ hlink ▸ rfl,
          hsup p (List.mem_cons_self p rest)⟩
      · obtain ⟨hle, hlink⟩ := happ2 e he2
        exact ⟨hn1.trans hle, hlink⟩

lemma forall2_mem_left {r : CalEvent → CalEvent → Prop} :
    ∀ {l l' : List CalEvent}, List.Forall₂ r l l' → ∀ e ∈ l, ∃ e' ∈ l', r e e'
  | [], [], List.Forall₂.nil, e, he => by cases he
  | x :: xs, y :: ys, List.Forall₂.cons h t, e, he => by
    rcases List.mem_cons.mp he with rfl | he2
    · exact ⟨y, List.mem_cons_self y ys, h⟩
    · obtain ⟨e', hem, hr⟩ := forall2_mem_left t e he2
      exact ⟨e', List.mem_cons_of_mem y hem, hr⟩

lemma orphanB_keyEq {ids : List Nat} {e e' : CalEvent} (h : keyEq e e') :
    orphanB ids e' = orphanB ids e := by
  unfold orphanB
  rw [h.2]

lemma forall2_keyEq_filter_orphan_len {ids : List Nat} :
    ∀ {l l' : List CalEvent}, List.Forall₂ keyEq l l' →
      (l'.filter (orphanB ids)).length = (l.filter (orphanB ids)).length
  | [], [], List.Forall₂.nil => rfl
  | x :: xs, y :: ys, List.Forall₂.cons h t => by
    rw [List.filter_cons, List.filter_cons, orphanB_keyEq h]
    split
    · simp only [List.length_cons]
      rw [forall2_keyEq_filter_orphan_len t]
    · exact forall2_keyEq_filter_orphan_len t

/-! ## Claim theorems -/

/-- C7: with the Record-id set captured as in `main`
(`notion_ids = set(item['id'])`), one failure-free Forward Sync Pass run
deletes in its sweep exactly the linked Events whose Record id is absent
from that set: the `deleted` counter equals their number, every such
Event's id is gone from the calendar, and every other Event (unlinked or
linked to a present Record) survives.  Distinct event ids below the
fresh-id source are assumed, as the calendar guarantees. -/
theorem c7_orphan_cleanup (w : World) (items : List NotionPage)
    (hwf : eventsWF w) :
    (sync_notion_to_calendar allOkFwd w items (items.map (fun p => p.id))).2.deleted
        = (w.events.filter (orphanB (items.map (fun p => p.id)))).length
    ∧ (∀ e ∈ w.events, orphanB (items.map (fun p => p.id)) e = true →
        ∀ e' ∈ (sync_notion_to_calendar allOkFwd w items (items.map (fun p => p.id))).1.events,
          e'.id ≠ e.id)
    ∧ (∀ e ∈ w.events, orphanB (items.map (fun p => p.id)) e = false →
        ∃ e' ∈ (sync_notion_to_calendar allOkFwd w items (items.map (fun p => p.id))).1.events,
          e'.id = e.id) := by
  set ids := items.map (fun p => p.id) with hids
  unfold sync_notion_to_calendar
  rw [if_pos (show allOkFwd.sweepListOk = true from rfl)]
  obtain ⟨hp1, hn1, hwf1, core, app, hev1, hrel1, happ1⟩ :=
    fwdItems_events allOkFwd items ids 0 (w, ⟨0, 0, 0, 0⟩)
      (fun p hp => List.mem_map_of_mem (fun p => p.id) hp) hwf
  set wc1 := fwdItems allOkFwd items 0 (w, ⟨0, 0, 0, 0⟩) with hwc1
  rw [show wc1 = (wc1.1, wc1.2) from rfl, fwdSweepLoop_ok]
  have hforph : ∀ e ∈ app, orphanB ids e = false := by
    intro e he
    obtain ⟨_, nid, hnid, hin⟩ := happ1 e he
    unfold orphanB
    rw [hnid]
    simp [hin]
  have hsync_filter : ((wc1.1.events.filter (fun e => e.notionId.isSome)).filter
      (orphanB ids)) = wc1.1.events.filter (orphanB ids) := by
    rw [List.filter_filter]
    refine List.filter_congr ?_
    intro e _
    unfold orphanB
    cases e.notionId with
    | none => rfl
    | some nid => simp
  have hlen : (wc1.1.events.filter (orphanB ids)).length
      = (w.events.filter (orphanB ids)).length := by
    rw [hev1, List.filter_append, List.length_append]
    rw [forall2_keyEq_filter_orphan_len hrel1]
    have happnil : app.filter (orphanB ids) = [] := by
      rw [List.filter_eq_nil_iff]
      intro e he
      rw [hforph e he]
      exact Bool.false_ne_true
    rw [happnil, List.length_nil, Nat.add_zero]
  have hdead_mem : ∀ a, (((wc1.1.events.filter (fun e => e.notionId.isSome)).filter
        (orphanB ids)).map (fun g => g.id)).contains a = true
      ↔ ∃ g ∈ wc1.1.events.filter (orphanB ids), g.id = a := by
    intro a
    rw [hsync_filter]
    have hciff : ((wc1.1.events.filter (orphanB ids)).map (fun g => g.id)).contains a = true
        ↔ a ∈ (wc1.1.events.filter (orphanB ids)).map (fun g => g.id) := by simp
    rw [hciff, List.mem_map]
  refine ⟨?_, ?_, ?_⟩
  · dsimp only
    rw [hsync_filter, hlen]
    have hdel0 : wc1.2.deleted = 0 :=
      fwdItems_deleted allOkFwd items 0 (w, ⟨0, 0, 0, 0⟩)
    omega
  · intro e he horph e' he' hid
    dsimp only at he'
    rw [List.mem_filter] at he'
    obtain ⟨e1, he1mem, hkey⟩ := forall2_mem_left hrel1 e he
    have he1orph : orphanB ids e1 = true := by rw [orphanB_keyEq hkey, horph]
    have he1ev : e1 ∈ wc1.1.events := by
      rw [hev1]
      exact List.mem_append_left _ he1mem
    have hc : (((wc1.1.events.filter (fun e => e.notionId.isSome)).filter
        (orphanB ids)).map (fun g => g.id)).contains e'.id = true := by
      rw [hdead_mem]
      exact ⟨e1, List.mem_filter.mpr ⟨he1ev, he1orph⟩, by rw [hid, ← hkey.1]⟩
    rw [hc] at he'
    simp at he'
  · intro e he horph
    obtain ⟨e1, he1mem, hkey⟩ := forall2_mem_left hrel1 e he
    have he1ev : e1 ∈ wc1.1.events := by
      rw [hev1]
      exact List.mem_append_left _ he1mem
    refine ⟨e1, ?_, hkey.1⟩
    dsimp only
    rw [List.mem_filter]
    refine ⟨he1ev, ?_⟩
    show (!(((wc1.1.events.filter (fun e => e.notionId.isSome)).filter
        (orphanB ids)).map (fun g => g.id)).contains e1.id) = true
    cases hcb : (((wc1.1.events.filter (fun e => e.notionId.isSome)).filter
        (orphanB ids)).map (fun g => g.id)).contains e1.id with
    | false => rfl
    | true =>
      exfalso
      obtain ⟨g, hg, hgid⟩ := (hdead_mem e1.id).mp hcb
      obtain ⟨gmem, gorph⟩ := List.mem_filter.mp hg
      have hge : g = e1 := nodup_id_inj hwf1.1 gmem he1ev hgid
      subst hge
      rw [orphanB_keyEq hkey, horph] at gorph
      exact Bool.false_ne_true gorph

/-- C7 witness: the concrete world with one Record, its linked Event and
one orphaned Event satisfies the hypotheses of `c7_orphan_cleanup`, and
the conclusions hold there. -/
theorem c7_orphan_cleanup_witness :
    eventsWF ⟨[pageA], [eventLinkedA, eventOrphan], 9⟩
    ∧ ((sync_notion_to_calendar allOkFwd ⟨[pageA], [eventLinkedA, eventOrphan], 9⟩
          [pageA] ([pageA].map (fun p => p.id))).2.deleted
        = (([eventLinkedA, eventOrphan] : List CalEvent).filter
            (orphanB ([pageA].map (fun p => p.id)))).length
      ∧ (∀ e ∈ ([eventLinkedA, eventOrphan] : List CalEvent),
          orphanB ([pageA].map (fun p => p.id)) e = true →
          ∀ e' ∈ (sync_notion_to_calendar allOkFwd ⟨[pageA], [eventLinkedA, eventOrphan], 9⟩
              [pageA] ([pageA].map (fun p => p.id))).1.events, e'.id ≠ e.id)
      ∧ (∀ e ∈ ([eventLinkedA, eventOrphan] : List CalEvent),
          orphanB ([pageA].map (fun p => p.id)) e = false →
          ∃ e' ∈ (sync_notion_to_calendar allOkFwd ⟨[pageA], [eventLinkedA, eventOrphan], 9⟩
              [pageA] ([pageA].map (fun p => p.id))).1.events, e'.id = e.id)) :=
  ⟨⟨by decide, by decide⟩,
   c7_orphan_cleanup ⟨[pageA], [eventLinkedA, eventOrphan], 9⟩ [pageA] ⟨by decide, by decide⟩⟩

/-- C2: the claim that translating a day-granularity range with an
explicit distinct end record→event adds one day to the inclusive end and
round-trips exactly is violated by the code: `notion_to_calendar_event`
passes the record end `2024-03-03` through unchanged as the calendar's
exclusive end (the claim requires `2024-03-04`), and translating the
produced event back with `gcal_event_to_notion_date` yields end
`2024-03-02`, one day short of the original range. -/
theorem c2_explicit_end_passthrough_breaks_roundtrip :
    notion_to_calendar_event pageRange
      = .ok ⟨"T", "Synced from Notion: u", .gdate "2024-03-01", .gdate "2024-03-03"⟩
    ∧ GTime.gdate "2024-03-03" ≠ GTime.gdate "2024-03-04"
    ∧ gcal_event_to_notion_date
        (mkSyncedEvent ⟨"T", "Synced from Notion: u", .gdate "2024-03-01",
          .gdate "2024-03-03"⟩ 7 0)
      = some (some "2024-03-01", some "2024-03-02")
    ∧ (some "2024-03-02" : Option String) ≠ some "2024-03-03" := by
  refine ⟨by decide, by decide, by decide, by decide⟩

/-- C3: the claim that a failed Record-collection fetch aborts the pass
with no sync actions is violated: `get_notion_items` turns a non-200
response into the empty list, `main` proceeds, and the Forward-Pass
deletion sweep then deletes the linked Event purely because the fetch
failed (reported `deleted = 1`, calendar left empty). -/
theorem c3_fetch_failure_not_aborted_deletes_events :
    get_notion_items 500 [pageA] = []
    ∧ (runSyncWith allOkFwd allOkRev 500 ⟨[pageA], [eventLinkedA], 7⟩).2.n2c.deleted = 1
    ∧ (runSyncWith allOkFwd allOkRev 500 ⟨[pageA], [eventLinkedA], 7⟩).1.events = [] := by
  refine ⟨by decide, by decide, by decide⟩

/-- C5: the reverse-direction `deleted` counter is initialised and
reported but never incremented: for every oracle, world and item list the
Reverse Pass returns `deleted = 0`, even on the concrete input where it
does delete the orphaned linked Event (the calendar ends empty while the
counter stays 0, against the claim that it is incremented by 1). -/
theorem c5_reverse_deleted_counter_never_incremented :
    (∀ (orc : RevOracle) (w : World) (items : List NotionPage),
      (sync_calendar_to_notion orc w items).2.deleted = 0)
    ∧ (sync_calendar_to_notion allOkRev ⟨[], [eventOrphan], 9⟩ []).1.events = []
    ∧ (sync_calendar_to_notion allOkRev ⟨[], [eventOrphan], 9⟩ []).2.deleted = 0 := by
  refine ⟨?_, by decide, by decide⟩
  intro orc w items
  unfold sync_calendar_to_notion
  split
  · exact revLoop_deleted orc items w.events 0 w ⟨0, 0, 0⟩
  · rfl

/-- C9 counterexample: at instant granularity the translation does not
return a null record end when the end equals the start — the equal
timestamp is passed through unchanged, contradicting the claim. -/
theorem c9_counterexample_equal_instant_end_not_nulled :
    gcal_event_to_notion_date
      ⟨9, some "T", none, some (.gdatetime "2024-03-01T10:00:00Z"),
        some (.gdatetime "2024-03-01T10:00:00Z"), none⟩
      = some (some "2024-03-01T10:00:00Z", some "2024-03-01T10:00:00Z")
    ∧ (some "2024-03-01T10:00:00Z" : Option String) ≠ none := by
  refine ⟨by decide, by decide⟩

/-- C9 amended: at day granularity `gcal_event_to_notion_date` subtracts
one calendar day from the exclusive end (witnessed on ordinals) and
returns a null record end exactly when the corrected end equals the
start; at instant granularity the end is passed through unchanged — even
when equal to the start — the equal-end suppression for instants being
performed only later by the record-write helpers. -/
theorem c9_amended_end_null_day_only (g : CalEvent) :
    (∀ (sd ed x : String),
      g.gstart = some (.gdate sd) → g.gend = some (.gdate ed) →
      pySubOneDay ed = some x →
      (x = sd → gcal_event_to_notion_date g = some (some sd, none))
      ∧ (x ≠ sd → gcal_event_to_notion_date g = some (some sd, some x))
      ∧ ∃ dd dx, parseDate ed = some dd ∧ predDate dd = some dx ∧ x = formatDate dx
          ∧ toOrdinal dx + 1 = toOrdinal dd)
    ∧ (∀ (sdt edt : String),
      g.gstart = some (.gdatetime sdt) → g.gend = some (.gdatetime edt) →
      gcal_event_to_notion_date g = some (some sdt, some edt)) := by
  constructor
  · intro sd ed x hgs hge hsub
    have hinv : ∃ dd, parseDate ed = some dd ∧ ∃ dx, predDate dd = some dx
        ∧ x = formatDate dx := by
      unfold pySubOneDay at hsub
      obtain ⟨dd, hdd, hsub2⟩ := optBind_some_inv hsub
      obtain ⟨dx, hdx, hsub3⟩ := optBind_some_inv hsub2
      cases hsub3
      exact ⟨dd, hdd, dx, hdx, rfl⟩
    obtain ⟨dd, hdd, dx, hdx, hx⟩ := hinv
    have hne : ed ≠ "" := by
      intro hcon
      have := parseDate_length hdd
      rw [hcon] at this
      simp at this
    have hred : gcal_event_to_notion_date g
        = some (some sd, if x = sd then none else some x) := by
      unfold gcal_event_to_notion_date
      rw [hgs, hge]
      dsimp only
      rw [if_neg hne, hsub]
    refine ⟨?_, ?_, dd, dx, hdd, hdx, hx, toOrdinal_pred (parseDate_valid hdd) hdx⟩
    · intro hxeq
      rw [hred, if_pos hxeq]
    · intro hxne
      rw [hred, if_neg hxne]
  · intro sdt edt hgs hge
    unfold gcal_event_to_notion_date
    rw [hgs, hge]

/-- C9 amended witness: concrete day-granularity instantiations, one with
corrected end equal to the start (null end) and the ordinal fact. -/
theorem c9_amended_end_null_day_only_witness :
    (gcal_event_to_notion_date
        ⟨9, some "T", none, some (.gdate "2024-03-01"), some (.gdate "2024-03-02"), none⟩
      = some (some "2024-03-01", none))
    ∧ ∃ dd dx, parseDate "2024-03-02" = some dd ∧ predDate dd = some dx
        ∧ "2024-03-01" = formatDate dx ∧ toOrdinal dx + 1 = toOrdinal dd := by
  have h := (c9_amended_end_null_day_only
      ⟨9, some "T", none, some (.gdate "2024-03-01"), some (.gdate "2024-03-02"), none⟩).1
      "2024-03-01" "2024-03-02" "2024-03-01" rfl rfl (by decide)
  exact ⟨h.1 rfl, h.2.2⟩

/-- C10: each forward-pass Record contributes to exactly one of the
created/updated/skipped counters unless its item errors: the three
counters plus the error count always total the number of fetched Records,
hence the sum never exceeds that number and equals it when no per-item
error occurs.  Holds for every oracle, world, item list and id set. -/
theorem c10_forward_counter_partition (orc : FwdOracle) (w : World)
    (items : List NotionPage) (ids : List Nat) :
    (sync_notion_to_calendar orc w items ids).2.created
        + (sync_notion_to_calendar orc w items ids).2.updated
        + (sync_notion_to_calendar orc w items ids).2.skipped
        + fwdErrCount orc items 0 = items.length
    ∧ (sync_notion_to_calendar orc w items ids).2.created
        + (sync_notion_to_calendar orc w items ids).2.updated
        + (sync_notion_to_calendar orc w items ids).2.skipped ≤ items.length
    ∧ (fwdErrCount orc items 0 = 0 →
        (sync_notion_to_calendar orc w items ids).2.created
          + (sync_notion_to_calendar orc w items ids).2.updated
          + (sync_notion_to_calendar orc w items ids).2.skipped = items.length) := by
  unfold sync_notion_to_calendar
  dsimp only
  have hsum := fwdItems_sum orc items 0 (w, ⟨0, 0, 0, 0⟩)
  dsimp only at hsum
  split
  · obtain ⟨hc, hu, hs⟩ := fwdSweepLoop_cus orc ids
      ((fwdItems orc items 0 (w, ⟨0, 0, 0, 0⟩)).1.events.filter
        (fun e => e.notionId.isSome)) 0 (fwdItems orc items 0 (w, ⟨0, 0, 0, 0⟩))
    refine ⟨by omega, by omega, fun h0 => by omega⟩
  · refine ⟨by omega, by omega, fun h0 => by omega⟩

/-- C10 witness: on a concrete error-free run the counters partition the
two fetched Records exactly. -/
theorem c10_forward_counter_partition_witness :
    fwdErrCount allOkFwd [pageA, pageRange] 0 = 0
    ∧ (sync_notion_to_calendar allOkFwd ⟨[pageA, pageRange], [eventLinkedA], 9⟩
          [pageA, pageRange] [0]).2.created
        + (sync_notion_to_calendar allOkFwd ⟨[pageA, pageRange], [eventLinkedA], 9⟩
            [pageA, pageRange] [0]).2.updated
        + (sync_notion_to_calendar allOkFwd ⟨[pageA, pageRange], [eventLinkedA], 9⟩
            [pageA, pageRange] [0]).2.skipped = ([pageA, pageRange] : List NotionPage).length :=
  ⟨by decide,
   (c10_forward_counter_partition allOkFwd ⟨[pageA, pageRange], [eventLinkedA], 9⟩
      [pageA, pageRange] [0]).2.2 (by decide)⟩

/-- C8: for a day-granularity start (four-digit year) with no end, the
record→event translation synthesizes an event end exactly one calendar
day after the start (stated on ordinals of the parsed strings); for a
well-formed instant-granularity start with no end, it synthesizes an end
whose parsed timestamp lies exactly 3600 seconds after the parsed start. -/
theorem c8_single_end_synthesis :
    (∀ (p : NotionPage) (s : String) (dd dd2 : Date),
      p.date = some ⟨s, none⟩ →
      parseDate s = some dd →
      1000 ≤ dd.y →
      succDate dd = some dd2 →
      ∃ b, notion_to_calendar_event p = .ok b ∧ b.gstart = .gdate s
        ∧ ∃ e de, b.gend = .gdate e ∧ parseDate e = some de
            ∧ toOrdinal de = toOrdinal dd + 1)
    ∧ (∀ (p : NotionPage) (s : String) (t t2 : DateTimeVal),
      p.date = some ⟨s, none⟩ →
      s.length ≠ 10 → s ≠ "" →
      parseIsoDateTime (pyReplaceZ s) = some t →
      addOneHour t = some t2 →
      ∃ b, notion_to_calendar_event p = .ok b ∧ b.gstart = .gdatetime s
        ∧ ∃ e te, b.gend = .gdatetime e ∧ parseIsoDateTime e = some te
            ∧ instantSeconds te = instantSeconds t + 3600) := by
  constructor
  · intro p s dd dd2 hdate hparse hy hsucc
    have hlen : s.length = 10 := parseDate_length hparse
    have hadd : pyAddOneDay s = some (formatDate dd2) := by
      unfold pyAddOneDay
      rw [hparse]
      show succDate dd >>= _ = _
      rw [hsucc]
      rfl
    have hvd2 : validDate dd2 = true := validDate_succ (parseDate_valid hparse) hsucc
    have hy2 : 1000 ≤ dd2.y := by
      unfold succDate at hsucc
      split at hsucc
      · cases hsucc; dsimp only; omega
      · split at hsucc
        · cases hsucc; dsimp only; omega
        · split at hsucc
          · cases hsucc; dsimp only; omega
          · cases hsucc
    refine ⟨⟨extract_title_from_notion p, notionDescription p, .gdate s,
        .gdate (formatDate dd2)⟩, ?_, rfl, formatDate dd2, dd2, rfl,
        parseDate_formatDate hvd2 hy2, toOrdinal_succ (parseDate_valid hparse) hsucc⟩
    unfold notion_to_calendar_event
    rw [hdate]
    dsimp only
    rw [if_pos hlen]
    rw [hadd]
  · intro p s t t2 hdate hlen hne hparse hadd
    have hiso : pyAddOneHourIso s = some (isoformatDT t2) := by
      unfold pyAddOneHourIso
      rw [hparse]
      show addOneHour t >>= _ = _
      rw [hadd]
      rfl
    have hwt := parseIsoDateTime_wf hparse
    refine ⟨⟨extract_title_from_notion p, notionDescription p, .gdatetime s,
        .gdatetime (isoformatDT t2)⟩, ?_, rfl, isoformatDT t2, t2, rfl,
        parseIso_isoformatDT (addOneHour_wf hwt hadd),
        addOneHour_instant hwt.1 hwt.2.1 hadd⟩
    unfold notion_to_calendar_event
    rw [hdate]
    dsimp only
    rw [if_neg hlen, if_neg hne]
    rw [hiso]
    rfl

/-- C8 witness: the Record start `2024-03-01` yields event end
`2024-03-02` (next ordinal), and the start `2024-03-01T10:00:00Z` yields
an end one hour (3600 seconds) later. -/
theorem c8_single_end_synthesis_witness :
    ((⟨0, "u", some "T", some ⟨"2024-03-01", none⟩⟩ : NotionPage).date
        = some ⟨"2024-03-01", none⟩
      ∧ parseDate "2024-03-01" = some ⟨2024, 3, 1⟩
      ∧ succDate ⟨2024, 3, 1⟩ = some ⟨2024, 3, 2⟩
      ∧ ∃ b, notion_to_calendar_event ⟨0, "u", some "T", some ⟨"2024-03-01", none⟩⟩ = .ok b
        ∧ b.gstart = .gdate "2024-03-01"
        ∧ ∃ e de, b.gend = .gdate e ∧ parseDate e = some de
            ∧ toOrdinal de = toOrdinal (⟨2024, 3, 1⟩ : Date) + 1)
    ∧ (parseIsoDateTime (pyReplaceZ "2024-03-01T10:00:00Z")
        = some ⟨⟨2024, 3, 1⟩, 10, 0, 0, some 0⟩
      ∧ addOneHour ⟨⟨2024, 3, 1⟩, 10, 0, 0, some 0⟩ = some ⟨⟨2024, 3, 1⟩, 11, 0, 0, some 0⟩
      ∧ ∃ b, notion_to_calendar_event
            ⟨1, "v", some "T", some ⟨"2024-03-01T10:00:00Z", none⟩⟩ = .ok b
        ∧ b.gstart = .gdatetime "2024-03-01T10:00:00Z"
        ∧ ∃ e te, b.gend = .gdatetime e ∧ parseIsoDateTime e = some te
            ∧ instantSeconds te
              = instantSeconds (⟨⟨2024, 3, 1⟩, 10, 0, 0, some 0⟩ : DateTimeVal) + 3600) :=
  ⟨⟨rfl, by decide, by decide,
    c8_single_end_synthesis.1 ⟨0, "u", some "T", some ⟨"2024-03-01", none⟩⟩
      "2024-03-01" ⟨2024, 3, 1⟩ ⟨2024, 3, 2⟩ rfl (by decide) (by decide) (by decide)⟩,
   ⟨by decide, by decide,
    c8_single_end_synthesis.2 ⟨1, "v", some "T", some ⟨"2024-03-01T10:00:00Z", none⟩⟩
      "2024-03-01T10:00:00Z" ⟨⟨2024, 3, 1⟩, 10, 0, 0, some 0⟩
      ⟨⟨2024, 3, 1⟩, 11, 0, 0, some 0⟩ rfl (by decide) (by decide) (by decide) (by decide)⟩⟩

/-- C4 counterexample: a Reverse-Pass title update also rewrites the
Record's date range with calendar-derived values: for a linked Event with
a differing title and differing dates, the Record's date changes from
2024-03-01..2024-03-05 to 2024-04-01..2024-04-02, contradicting the claim
that only the title field changes. -/
theorem c4_counterexample_dates_overwritten :
    (sync_calendar_to_notion allOkRev ⟨[pageA], [eventLinkedA], 7⟩ [pageA]).1.pages
      = [⟨0, "u", some "B", some ⟨"2024-04-01", some "2024-04-02"⟩⟩]
    ∧ (⟨0, "u", some "B", some ⟨"2024-04-01", some "2024-04-02"⟩⟩ : NotionPage).date
      ≠ pageA.date := by
  refine ⟨by decide, by decide⟩

/-- C4 amended: a Reverse-Pass update fires only on a title difference,
but it PATCHes both the title property and the date property: the target
Record's title becomes the Event's title and its date range becomes the
Event's range as translated by `gcal_event_to_notion_date` (end dropped
when falsy or equal to the start); id and url are untouched, as are all
other Records and all Events.  When the titles agree, nothing is written. -/
theorem c4_amended_title_triggered_update_includes_dates :
    (∀ (items : List NotionPage) (w : World) (c : RevCounts) (g : CalEvent)
        (nid : Nat) (p : NotionPage) (gs : String) (ge : Option String),
      g.notionId = some nid →
      lookupNotionMap items nid = some p →
      g.summary.getD "Untitled Event" ≠ extract_title_from_notion p →
      gcal_event_to_notion_date g = some (some gs, ge) →
      gs ≠ "" →
      processRevItem true true true true items w c g
        = .ok ({ w with pages := w.pages.map (fun q =>
              if q.id = nid
              then { q with titleText := some (g.summary.getD "Untitled Event"),
                            date := some ⟨gs, buildDateStop gs ge⟩ }
              else q) },
           { c with updated := c.updated + 1 }))
    ∧ (∀ (items : List NotionPage) (w : World) (c : RevCounts) (g : CalEvent)
        (nid : Nat) (p : NotionPage) (gsOpt geOpt : Option String),
      g.notionId = some nid →
      lookupNotionMap items nid = some p →
      g.summary.getD "Untitled Event" = extract_title_from_notion p →
      gcal_event_to_notion_date g = some (gsOpt, geOpt) →
      processRevItem true true true true items w c g = .ok (w, c)) := by
  constructor
  · intro items w c g nid p gs ge hnid hlook htitle hconv hgs
    unfold processRevItem
    rw [hnid]
    dsimp only
    rw [hlook]
    dsimp only
    rw [hconv]
    dsimp only
    rw [if_pos ⟨hgs, htitle⟩, if_pos rfl]
    rfl
  · intro items w c g nid p gsOpt geOpt hnid hlook htitle hconv
    unfold processRevItem
    rw [hnid]
    dsimp only
    rw [hlook]
    dsimp only
    rw [hconv]
    dsimp only
    cases gsOpt with
    | none => rfl
    | some gs =>
      dsimp only
      rw [if_neg (fun hcon => hcon.2 htitle)]

/-- C4 amended witness: the concrete title-differing update rewrites the
Record as described, and a title-equal Event leaves the store unchanged. -/
theorem c4_amended_title_triggered_update_includes_dates_witness :
    processRevItem true true true true [pageA] ⟨[pageA], [eventLinkedA], 7⟩ ⟨0, 0, 0⟩
        eventLinkedA
      = .ok ({ pages := [⟨0, "u", some "B", some ⟨"2024-04-01", some "2024-04-02"⟩⟩],
               events := [eventLinkedA], nextId := 7 },
             ⟨0, 1, 0⟩) := by
  have h := (c4_amended_title_triggered_update_includes_dates).1 [pageA]
    ⟨[pageA], [eventLinkedA], 7⟩ ⟨0, 0, 0⟩ eventLinkedA 0 pageA
    "2024-04-01" (some "2024-04-02") rfl (by decide) (by decide) (by decide) (by decide)
  rw [h]
  rfl

/-- C6 counterexample: a single failing Calendar call inside the reverse
pass is NOT isolated to its item: with a delete failure on the first
event, the pass returns immediately with the store and counters
untouched, and the second event — which a failure-free pass would adopt
as a new Record (created = 1, one new page) — is never processed.  This
contradicts the claim that a per-item failure lets the loop continue with
the remaining events. -/
theorem c6_counterexample_failure_not_isolated :
    sync_calendar_to_notion failDel0Oracle ⟨[], [eventOrphan, eventNative], 9⟩ []
      = (⟨[], [eventOrphan, eventNative], 9⟩, ⟨0, 0, 0⟩)
    ∧ (sync_calendar_to_notion allOkRev ⟨[], [eventOrphan, eventNative], 9⟩ []).2.created
      = 1
    ∧ (sync_calendar_to_notion allOkRev
        ⟨[], [eventOrphan, eventNative], 9⟩ []).1.pages.length = 1 := by
  refine ⟨by decide, by decide, by decide⟩

/-- C6 amended: the reverse pass wraps its whole event loop in one
exception handler, so the first item that raises ends the pass: the run
returns exactly the state accumulated up to the failing item, the
counters are those before that item, and the remaining events are never
examined. -/
theorem c6_amended_item_failure_aborts_reverse_pass
    (orc : RevOracle) (items : List NotionPage) (evs1 evs2 : List CalEvent)
    (g : CalEvent) (w : World) (wc1 wc2 : World × RevCounts)
    (hlist : orc.listOk = true)
    (hevs : w.events = evs1 ++ g :: evs2)
    (hpre : revLoopE orc items evs1 0 (w, ⟨0, 0, 0⟩) = .ok wc1)
    (hstep : processRevItem (orc.createPageOk evs1.length) (orc.attachOk evs1.length)
        (orc.deleteOk evs1.length) (orc.pageUpdateOk evs1.length) items wc1.1 wc1.2 g
      = .error wc2) :
    sync_calendar_to_notion orc w items = wc2 ∧ wc2.2 = wc1.2 := by
  refine ⟨?_, processRevItem_error_counts hstep⟩
  unfold sync_calendar_to_notion
  rw [if_pos hlist, hevs, revLoop_eq_payload,
      revLoopE_append orc items evs1 (g :: evs2) 0 (w, ⟨0, 0, 0⟩) wc1 hpre,
      revLoopE_cons, Nat.zero_add, hstep]
  rfl

/-- C6 amended witness: with the delete-failing Calendar on the two-event
store, the pass returns the untouched store with zero counters. -/
theorem c6_amended_item_failure_aborts_reverse_pass_witness :
    sync_calendar_to_notion failDel0Oracle ⟨[], [eventOrphan, eventNative], 9⟩ []
        = ((⟨[], [eventOrphan, eventNative], 9⟩ : World), (⟨0, 0, 0⟩ : RevCounts))
      ∧ (((⟨[], [eventOrphan, eventNative], 9⟩ : World), (⟨0, 0, 0⟩ : RevCounts))
          : World × RevCounts).2
        = (((⟨[], [eventOrphan, eventNative], 9⟩ : World), (⟨0, 0, 0⟩ : RevCounts))
          : World × RevCounts).2 :=
  c6_amended_item_failure_aborts_reverse_pass failDel0Oracle [] [] [eventNative]
    eventOrphan ⟨[], [eventOrphan, eventNative], 9⟩
    (⟨[], [eventOrphan, eventNative], 9⟩, ⟨0, 0, 0⟩)
    (⟨[], [eventOrphan, eventNative], 9⟩, ⟨0, 0, 0⟩)
    rfl rfl rfl rfl

/-! ## Lemmas about the record map and the good-page predicates -/

lemma lookup_foldl_some :
    ∀ (l : List NotionPage) (nid : Nat) (acc : Option NotionPage) (q : NotionPage),
      l.foldl (fun a p => if p.id = nid then some p else a) acc = some q →
      (q ∈ l ∧ q.id = nid) ∨ acc = some q
  | [], _, _, _, h => .inr h
  | p :: l', nid, acc, q, h => by
    rw [List.foldl_cons] at h
    rcases lookup_foldl_some l' nid _ q h with ⟨hm, hid⟩ | hacc
    · exact .inl ⟨List.mem_cons_of_mem p hm, hid⟩
    · by_cases hp : p.id = nid
      · rw [if_pos hp] at hacc
        cases hacc
        exact .inl ⟨List.mem_cons_self p l', hp⟩
      · rw [if_neg hp] at hacc
        exact .inr hacc

lemma lookupNotionMap_mem {items : List NotionPage} {nid : Nat} {p : NotionPage}
    (h : lookupNotionMap items nid = some p) : p ∈ items ∧ p.id = nid := by
  rcases lookup_foldl_some items nid none p h with hres | hacc
  · exact hres
  · cases hacc

lemma lookup_foldl_skip :
    ∀ (l : List NotionPage) (nid : Nat) (acc : Option NotionPage),
      (∀ q ∈ l, q.id ≠ nid) →
      l.foldl (fun a p => if p.id = nid then some p else a) acc = acc
  | [], _, _, _ => rfl
  | p :: l', nid, acc, h => by
    rw [List.foldl_cons, if_neg (h p (List.mem_cons_self p l'))]
    exact lookup_foldl_skip l' nid acc (fun q hq => h q (List.mem_cons_of_mem p hq))

lemma lookupNotionMap_nodup :
    ∀ {items : List NotionPage} {p : NotionPage},
      (items.map (fun q => q.id)).Nodup → p ∈ items →
      lookupNotionMap items p.id = some p
  | [], p, _, hp => by cases hp
  | q :: items', p, hnd, hp => by
    rw [List.map_cons, List.nodup_cons] at hnd
    unfold lookupNotionMap
    rw [List.foldl_cons]
    rcases List.mem_cons.mp hp with rfl | hp2
    · rw [if_pos rfl]
      exact lookup_foldl_skip items' p.id (some p)
        (fun r hr hre => hnd.1 (hre ▸ List.mem_map_of_mem (fun q => q.id) hr))
    · have hne : q.id ≠ p.id :=
        fun he => hnd.1 (he ▸ List.mem_map_of_mem (fun q => q.id) hp2)
      rw [if_neg hne]
      exact lookupNotionMap_nodup hnd.2 hp2

lemma succDate_some {dt : Date} (h : dt.y ≤ 9998) : ∃ dt2, succDate dt = some dt2 := by
  unfold succDate
  repeat' split
  all_goals first | exact ⟨_, rfl⟩ | omega

lemma predDate_some {dt : Date} (h : 1000 ≤ dt.y) : ∃ dt2, predDate dt = some dt2 := by
  unfold predDate
  repeat' split
  all_goals first | exact ⟨_, rfl⟩ | omega

lemma succDate_y {dt dt2 : Date} (h : succDate dt = some dt2) : dt.y ≤ dt2.y := by
  unfold succDate at h
  repeat' split at h
  all_goals first | (cases h; dsimp only; omega) | cases h

lemma succDate_pred {dt dt' : Date} (hv : validDate dt = true)
    (h : succDate dt = some dt') : predDate dt' = some dt := by
  obtain ⟨Y, M, D⟩ := dt
  simp only [validDate, Bool.and_eq_true, decide_eq_true_eq] at hv
  obtain ⟨⟨⟨⟨⟨hy1, hy2⟩, hm1⟩, hm2⟩, hd1⟩, hd2⟩ := hv
  unfold succDate at h
  dsimp only at h hd2
  split at h
  · cases h
    unfold predDate
    dsimp only
    rw [if_pos (by omega)]
    simp only [Option.some.injEq, Date.mk.injEq, true_and, and_true]
    try omega
  · split at h
    · cases h
      unfold predDate
      dsimp only
      rw [if_neg (by omega), if_pos (by omega)]
      simp only [Option.some.injEq, Date.mk.injEq, Nat.add_sub_cancel, true_and, and_true]
      try omega
    · split at h
      · cases h
        unfold predDate
        dsimp only
        rw [if_neg (by omega), if_neg (by omega), if_pos (by omega)]
        have hm12 : M = 12 := by omega
        subst hm12
        have h31 : daysInMonth Y 12 = 31 := by simp [daysInMonth]
        rw [h31] at hd2
        simp only [Option.some.injEq, Date.mk.injEq, Nat.add_sub_cancel, true_and, and_true]
        try omega
      · cases h

lemma pyOkDay_spec {s : String} (h : pyOkDay s = true) :
    ∃ dd, parseDate s = some dd ∧ 1000 ≤ dd.y ∧ dd.y ≤ 9998
      ∧ s.length = 10 ∧ s ≠ "" := by
  unfold pyOkDay at h
  split at h
  next dd hp =>
    simp only [Bool.and_eq_true, decide_eq_true_eq] at h
    have hlen := parseDate_length hp
    refine ⟨dd, hp, h.1, h.2, hlen, ?_⟩
    intro he
    rw [he] at hlen
    exact absurd hlen (by decide)
  next => cases h

lemma pyAddOneDay_eq {s : String} {dd dd2 : Date} (h1 : parseDate s = some dd)
    (h2 : succDate dd = some dd2) : pyAddOneDay s = some (formatDate dd2) := by
  unfold pyAddOneDay
  rw [h1]
  simp only [Option.bind_eq_bind, Option.some_bind]
  rw [h2]
  rfl

lemma pySubOneDay_eq {s : String} {dd dd' : Date} (h1 : parseDate s = some dd)
    (h2 : predDate dd = some dd') : pySubOneDay s = some (formatDate dd') := by
  unfold pySubOneDay
  rw [h1]
  simp only [Option.bind_eq_bind, Option.some_bind]
  rw [h2]
  rfl

lemma goodPage_skip {p : NotionPage} (hd : p.date = none) :
    notion_to_calendar_event p = .skip := by
  unfold notion_to_calendar_event
  rw [hd]

lemma conv_ok_summary {p : NotionPage} {body : EventBody}
    (h : notion_to_calendar_event p = .ok body) :
    body.summary = extract_title_from_notion p := by
  unfold notion_to_calendar_event at h
  split at h
  · cases h
  · dsimp only at h
    repeat' split at h
    all_goals first | (cases h; rfl) | cases h

lemma goodPage_conv {p : NotionPage} {nd : NotionDate} (hg : goodPage p = true)
    (hd : p.date = some nd) :
    ∃ body et, notion_to_calendar_event p = .ok body
      ∧ body.summary = extract_title_from_notion p
      ∧ body.gstart = .gdate nd.start
      ∧ body.gend = .gdate et
      ∧ et ≠ ""
      ∧ (pySubOneDay et).isSome = true := by
  unfold goodPage at hg
  rw [hd] at hg
  dsimp only at hg
  rw [Bool.and_eq_true] at hg
  obtain ⟨hok, hstop⟩ := hg
  obtain ⟨dd, hparse, hy1, hy2, hlen, hne⟩ := pyOkDay_spec hok
  have hv := parseDate_valid hparse
  unfold notion_to_calendar_event
  rw [hd]
  dsimp only
  rw [if_pos hlen]
  cases hsv : nd.stop with
  | none =>
    dsimp only
    obtain ⟨dd2, hsucc⟩ := succDate_some hy2
    rw [pyAddOneDay_eq hparse hsucc]
    have hv2 := validDate_succ hv hsucc
    have hy2' : 1000 ≤ dd2.y := Nat.le_trans hy1 (succDate_y hsucc)
    have hp2 := parseDate_formatDate hv2 hy2'
    have hlen2 := parseDate_length hp2
    refine ⟨_, formatDate dd2, rfl, rfl, rfl, rfl, ?_, ?_⟩
    · intro he
      rw [he] at hlen2
      exact absurd hlen2 (by decide)
    · rw [pySubOneDay_eq hp2 (succDate_pred hv hsucc)]
      rfl
  | some e =>
    rw [hsv] at hstop
    dsimp only at hstop
    dsimp only
    by_cases he : e = ""
    · subst he
      rw [if_pos (show ("" : String) = "" from rfl)]
      dsimp only
      obtain ⟨dd2, hsucc⟩ := succDate_some hy2
      rw [pyAddOneDay_eq hparse hsucc]
      have hv2 := validDate_succ hv hsucc
      have hy2' : 1000 ≤ dd2.y := Nat.le_trans hy1 (succDate_y hsucc)
      have hp2 := parseDate_formatDate hv2 hy2'
      have hlen2 := parseDate_length hp2
      refine ⟨_, formatDate dd2, rfl, rfl, rfl, rfl, ?_, ?_⟩
      · intro heq
        rw [heq] at hlen2
        exact absurd hlen2 (by decide)
      · rw [pySubOneDay_eq hp2 (succDate_pred hv hsucc)]
        rfl
    · rw [if_neg he]
      dsimp only
      rw [Bool.or_eq_true, decide_eq_true_eq] at hstop
      rcases hstop with hstop | hstop
      · exact absurd hstop he
      · obtain ⟨de, hpe, hye1, hye2, hlene, hnee⟩ := pyOkDay_spec hstop
        obtain ⟨de', hpred⟩ := predDate_some hye1
        refine ⟨_, e, rfl, rfl, rfl, rfl, hnee, ?_⟩
        rw [pySubOneDay_eq hpe hpred]
        rfl

lemma syncedB_spec {items : List NotionPage} {e : CalEvent}
    (h : syncedB items e = true) :
    ∃ nid p body, e.notionId = some nid ∧ lookupNotionMap items nid = some p
      ∧ notion_to_calendar_event p = .ok body
      ∧ e = mkSyncedEvent body e.id nid := by
  unfold syncedB at h
  split at h
  · cases h
  next nid hn =>
    split at h
    · cases h
    next p hl =>
      split at h
      next body hc => exact ⟨nid, p, body, hn, hl, hc, of_decide_eq_true h⟩
      next => cases h

lemma syncedB_mk {items : List NotionPage} {p : NotionPage} {body : EventBody}
    (hl : lookupNotionMap items p.id = some p)
    (hc : notion_to_calendar_event p = .ok body) (eid : Nat) :
    syncedB items (mkSyncedEvent body eid p.id) = true := by
  unfold syncedB mkSyncedEvent
  dsimp only
  rw [hl]
  dsimp only
  rw [hc]
  exact decide_eq_true rfl

lemma filter_nil_not_mem {l : List CalEvent} {nid : Nat}
    (h : l.filter (fun e => e.notionId = some nid) = []) :
    some nid ∉ l.map (fun e => e.notionId) := by
  intro hmem
  rcases List.mem_map.mp hmem with ⟨e, he, heq⟩
  have h2 := List.filter_eq_nil.mp h e he
  exact h2 (decide_eq_true heq)

lemma filter_head_linked {l : List CalEvent} {nid : Nat} {e0 : CalEvent}
    {tl : List CalEvent}
    (h : l.filter (fun e => e.notionId = some nid) = e0 :: tl) :
    e0 ∈ l ∧ e0.notionId = some nid := by
  have hm : e0 ∈ l.filter (fun e => e.notionId = some nid) := by
    rw [h]
    exact List.mem_cons_self _ _
  have h2 := List.mem_filter.mp hm
  exact ⟨h2.1, of_decide_eq_true h2.2⟩

lemma filterMap_notionId_eq {l l' : List CalEvent}
    (h : l.map (fun e => e.notionId) = l'.map (fun e => e.notionId)) :
    l.filterMap (fun e => e.notionId) = l'.filterMap (fun e => e.notionId) := by
  have key : ∀ (m : List CalEvent), m.filterMap (fun e => e.notionId)
      = (m.map (fun e => e.notionId)).filterMap id := by
    intro m
    induction m with
    | nil => rfl
    | cons a t ih =>
      rw [List.map_cons, List.filterMap_cons, List.filterMap_cons, ih]
      rfl
  rw [key, key, h]

lemma linked_unique {l : List CalEvent}
    (hnd : (l.filterMap (fun e => e.notionId)).Nodup) {nid : Nat}
    {e e' : CalEvent} (he : e ∈ l) (he' : e' ∈ l)
    (hne : e.notionId = some nid) (hne' : e'.notionId = some nid) : e = e' := by
  induction l with
  | nil => cases he
  | cons a t ih =>
    rw [List.filterMap_cons] at hnd
    rcases List.mem_cons.mp he with rfl | he2
    · rcases List.mem_cons.mp he' with rfl | he2'
      · rfl
      · rw [hne] at hnd
        rw [List.nodup_cons] at hnd
        exact absurd (List.mem_filterMap.mpr ⟨e', he2', hne'⟩) hnd.1
    · rcases List.mem_cons.mp he' with rfl | he2'
      · rw [hne'] at hnd
        rw [List.nodup_cons] at hnd
        exact absurd (List.mem_filterMap.mpr ⟨e, he2, hne⟩) hnd.1
      · refine ih ?_ he2 he2'
        split at hnd
        · exact hnd
        · exact (List.nodup_cons.mp hnd).2

lemma filter_partition (l : List NotionPage) (b : NotionPage → Bool) :
    (l.filter (fun p => p.date.isSome && !(b p))).length
      + (l.filter (fun p => p.date.isSome && b p)).length
      = (l.filter (fun p => p.date.isSome)).length := by
  induction l with
  | nil => rfl
  | cons p t ih =>
    rw [List.filter_cons, List.filter_cons, List.filter_cons]
    by_cases hs : p.date.isSome = true
    · by_cases hb : b p = true
      · rw [if_neg (by simp [hs, hb]), if_pos (by simp [hs, hb]), if_pos hs]
        simp only [List.length_cons]
        omega
      · rw [if_pos (by simp [hs, hb]), if_neg (by simp [hs, hb]), if_pos hs]
        simp only [List.length_cons]
        omega
    · rw [if_neg (by simp [hs]), if_neg (by simp [hs]), if_neg hs]
      exact ih

lemma revItem_synced_noop {items : List NotionPage} {e : CalEvent}
    (hgood : ∀ p ∈ items, goodPage p = true)
    (hs : syncedB items e = true) (w : World) (c : RevCounts) :
    processRevItem true true true true items w c e = .ok (w, c) := by
  obtain ⟨nid, p, body, hn, hl, hc, he⟩ := syncedB_spec hs
  have hmem := lookupNotionMap_mem hl
  have hgp := hgood p hmem.1
  cases hd : p.date with
  | none =>
    rw [goodPage_skip hd] at hc
    cases hc
  | some nd =>
    obtain ⟨body', et, hc', hsum, hstart, hend, hetne, hsub⟩ := goodPage_conv hgp hd
    rw [hc'] at hc
    cases hc
    obtain ⟨ed2, hsub2⟩ := Option.isSome_iff_exists.mp hsub
    have hconv : gcal_event_to_notion_date (mkSyncedEvent body e.id nid)
        = some (some nd.start, if ed2 = nd.start then none else some ed2) := by
      unfold gcal_event_to_notion_date
      rw [show (mkSyncedEvent body e.id nid).gstart = some body.gstart from rfl,
        hstart]
      dsimp only
      rw [show (mkSyncedEvent body e.id nid).gend = some body.gend from rfl, hend]
      dsimp only
      rw [if_neg hetne, hsub2]
    rw [he]
    unfold processRevItem
    rw [show (mkSyncedEvent body e.id nid).notionId = some nid from rfl]
    dsimp only
    rw [hl]
    dsimp only
    rw [hconv]
    dsimp only
    rw [if_neg (fun hcon => hcon.2 (show (mkSyncedEvent body e.id nid).summary.getD
      "Untitled Event" = extract_title_from_notion p from hsum))]

lemma revLoop_synced_noop (items : List NotionPage)
    (hgood : ∀ p ∈ items, goodPage p = true) :
    ∀ (evs : List CalEvent) (i : Nat) (w : World) (c : RevCounts),
      (∀ e ∈ evs, syncedB items e = true) →
      revLoop allOkRev items evs i (w, c) = (w, c)
  | [], _, _, _, _ => rfl
  | g :: rest, i, w, c, h => by
    unfold revLoop
    dsimp only [allOkRev]
    rw [revItem_synced_noop hgood (h g (List.mem_cons_self g rest)) w c]
    exact revLoop_synced_noop items hgood rest (i + 1) w c
      (fun e hee => h e (List.mem_cons_of_mem g hee))

lemma sync_rev_synced_noop (items : List NotionPage) (w : World)
    (hgood : ∀ p ∈ items, goodPage p = true)
    (hsync : ∀ e ∈ w.events, syncedB items e = true) :
    sync_calendar_to_notion allOkRev w items = (w, ⟨0, 0, 0⟩) := by
  unfold sync_calendar_to_notion
  rw [if_pos (show allOkRev.listOk = true from rfl)]
  exact revLoop_synced_noop items hgood w.events 0 w ⟨0, 0, 0⟩ hsync

lemma fwdSweepLoop_noop (ids : List Nat) :
    ∀ (evs : List CalEvent) (i : Nat) (wc : World × FwdCounts),
      (∀ e ∈ evs, ∀ nid, e.notionId = some nid → nid ∈ ids) →
      fwdSweepLoop allOkFwd ids evs i wc = wc
  | [], _, _, _ => rfl
  | g :: rest, i, wc, h => by
    rw [fwdSweepLoop_cons]
    cases hg : g.notionId with
    | none =>
      exact fwdSweepLoop_noop ids rest (i + 1) wc
        (fun e hee => h e (List.mem_cons_of_mem g hee))
    | some nid =>
      dsimp only
      rw [if_pos (h g (List.mem_cons_self g rest) nid hg)]
      exact fwdSweepLoop_noop ids rest (i + 1) wc
        (fun e hee => h e (List.mem_cons_of_mem g hee))

lemma fwdItems_run1 (items : List NotionPage)
    (hind : (items.map (fun q => q.id)).Nodup)
    (hgi : ∀ p ∈ items, goodPage p = true) :
    ∀ (ps : List NotionPage) (i : Nat) (w : World) (c : FwdCounts),
      (∀ p ∈ ps, p ∈ items) →
      (ps.map (fun q => q.id)).Nodup →
      eventsWF w →
      (w.events.filterMap (fun e => e.notionId)).Nodup →
      (fwdItems allOkFwd ps i (w, c)).1.pages = w.pages
      ∧ eventsWF (fwdItems allOkFwd ps i (w, c)).1
      ∧ ((fwdItems allOkFwd ps i (w, c)).1.events.filterMap (fun e => e.notionId)).Nodup
      ∧ (∃ app, (fwdItems allOkFwd ps i (w, c)).1.events.map (fun e => e.notionId)
            = w.events.map (fun e => e.notionId) ++ app)
      ∧ (fwdItems allOkFwd ps i (w, c)).2.created
          = c.created + (ps.filter (fun p => p.date.isSome
              && !(decide (some p.id ∈ w.events.map (fun e => e.notionId))))).length
      ∧ (fwdItems allOkFwd ps i (w, c)).2.updated
          = c.updated + (ps.filter (fun p => p.date.isSome
              && decide (some p.id ∈ w.events.map (fun e => e.notionId)))).length
      ∧ (fwdItems allOkFwd ps i (w, c)).2.skipped
          = c.skipped + (ps.filter (fun p => p.date.isNone)).length
      ∧ (fwdItems allOkFwd ps i (w, c)).2.deleted = c.deleted
      ∧ ((∀ e ∈ w.events, syncedB items e = true
            ∨ ∃ p ∈ ps, p.date.isSome = true ∧ e.notionId = some p.id) →
          (∀ e ∈ (fwdItems allOkFwd ps i (w, c)).1.events, syncedB items e = true)
          ∧ ∀ p ∈ ps, p.date.isSome = true →
              some p.id ∈ (fwdItems allOkFwd ps i (w, c)).1.events.map (fun e => e.notionId))
  | [], i, w, c, _, _, hwf, hlnd => by
    refine ⟨rfl, hwf, hlnd, ⟨[], (List.append_nil _).symm⟩, rfl, rfl, rfl, rfl, ?_⟩
    intro hyp
    constructor
    · intro e hee
      rcases hyp e hee with hsy | ⟨q, hq, _⟩
      · exact hsy
      · cases hq
    · intro q hq
      cases hq
  | p :: rest, i, w, c, hsub, hnd, hwf, hlnd => by
    rw [fwdItems_cons]
    rw [show allOkFwd.itemOk i = true from rfl]
    rw [List.map_cons, List.nodup_cons] at hnd
    have hsubr : ∀ q ∈ rest, q ∈ items := fun q hq => hsub q (List.mem_cons_of_mem p hq)
    have hpitems := hsub p (List.mem_cons_self p rest)
    have hgp := hgi p hpitems
    cases hd : p.date with
    | none =>
      have hstep : processFwdItem true (w, c) p
          = (w, { c with skipped := c.skipped + 1 }) := by
        unfold processFwdItem
        rw [goodPage_skip hd]
      rw [hstep]
      obtain ⟨A, B, G, ⟨app, Capp⟩, Dc, Du, Ds, Dd, E⟩ :=
        fwdItems_run1 items hind hgi rest (i + 1) w { c with skipped := c.skipped + 1 }
          hsubr hnd.2 hwf hlnd
      dsimp only at Dc Du Ds Dd
      refine ⟨A, B, G, ⟨app, Capp⟩, ?_, ?_, ?_, Dd, ?_⟩
      · rw [Dc, List.filter_cons, if_neg (by simp [hd])]
      · rw [Du, List.filter_cons, if_neg (by simp [hd])]
      · rw [Ds, List.filter_cons, if_pos (by simp [hd]), List.length_cons]
        omega
      · intro hyp
        have hyp' : ∀ e ∈ w.events, syncedB items e = true
            ∨ ∃ q ∈ rest, q.date.isSome = true ∧ e.notionId = some q.id := by
          intro e hee
          rcases hyp e hee with hsy | ⟨q, hq, hqd, hqe⟩
          · exact .inl hsy
          · rcases List.mem_cons.mp hq with rfl | hq2
            · rw [hd] at hqd
              cases hqd
            · exact .inr ⟨q, hq2, hqd, hqe⟩
        obtain ⟨E1, E2⟩ := E hyp'
        refine ⟨E1, ?_⟩
        intro q hq hqd
        rcases List.mem_cons.mp hq with rfl | hq2
        · rw [hd] at hqd
          cases hqd
        · exact E2 q hq2 hqd
    | some nd =>
      obtain ⟨body, et, hconv, hsum, hstart, hend, hetne, hsub'⟩ := goodPage_conv hgp hd
      have hlook : lookupNotionMap items p.id = some p := lookupNotionMap_nodup hind hpitems
      cases hfil : w.events.filter (fun e => e.notionId = some p.id) with
      | nil =>
        have hnotmem : some p.id ∉ w.events.map (fun e => e.notionId) :=
          filter_nil_not_mem hfil
        have hstep : processFwdItem true (w, c) p
            = ({ w with events := w.events ++ [mkSyncedEvent body w.nextId p.id],
                        nextId := w.nextId + 1 },
               { c with created := c.created + 1 }) := by
          unfold processFwdItem
          dsimp only
          rw [hconv]
          dsimp only
          rw [if_pos (show (true : Bool) = true from rfl), hfil]
        rw [hstep]
        have hlk : (w.events ++ [mkSyncedEvent body w.nextId p.id]).map
              (fun e => e.notionId)
            = w.events.map (fun e => e.notionId) ++ [some p.id] := by
          rw [List.map_append]
          rfl
        have hwf' : eventsWF { w with
            events := w.events ++ [mkSyncedEvent body w.nextId p.id],
            nextId := w.nextId + 1 } := by
          refine ⟨?_, ?_⟩
          · dsimp only
            rw [List.map_append, List.map_cons, List.map_nil, List.nodup_append]
            refine ⟨hwf.1, List.nodup_singleton _, ?_⟩
            intro a ha hb
            rcases List.mem_map.mp ha with ⟨e, hee, rfl⟩
            have hb' := List.mem_singleton.mp hb
            have := hwf.2 e hee
            simp only [mkSyncedEvent] at hb'
            omega
          · intro e hee
            dsimp only at hee ⊢
            rcases List.mem_append.mp hee with h2 | h2
            · have := hwf.2 e h2
              omega
            · rcases List.mem_singleton.mp h2 with rfl
              simp only [mkSyncedEvent]
              omega
        have hlnd' : (({ w with
              events := w.events ++ [mkSyncedEvent body w.nextId p.id],
              nextId := w.nextId + 1 } : World).events.filterMap
                (fun e => e.notionId)).Nodup := by
          dsimp only
          rw [List.filterMap_append, List.nodup_append]
          refine ⟨hlnd, ?_, ?_⟩
          · rw [show ([mkSyncedEvent body w.nextId p.id].filterMap
                (fun e => e.notionId)) = [p.id] from rfl]
            exact List.nodup_singleton _
          · intro a ha hb
            rw [show ([mkSyncedEvent body w.nextId p.id].filterMap
                (fun e => e.notionId)) = [p.id] from rfl] at hb
            rcases List.mem_singleton.mp hb with rfl
            rcases List.mem_filterMap.mp ha with ⟨e, hee, hne⟩
            exact hnotmem (List.mem_map.mpr ⟨e, hee, hne⟩)
        obtain ⟨A, B, G, ⟨app, Capp⟩, Dc, Du, Ds, Dd, E⟩ :=
          fwdItems_run1 items hind hgi rest (i + 1)
            { w with events := w.events ++ [mkSyncedEvent body w.nextId p.id],
                     nextId := w.nextId + 1 }
            { c with created := c.created + 1 } hsubr hnd.2 hwf' hlnd'
        dsimp only at A Capp Dc Du Ds Dd E
        rw [hlk] at Capp Dc Du
        have hcgN : rest.filter (fun q => q.date.isSome
              && !(decide (some q.id ∈ w.events.map (fun e => e.notionId)
                ++ [some p.id])))
            = rest.filter (fun q => q.date.isSome
              && !(decide (some q.id ∈ w.events.map (fun e => e.notionId)))) := by
          refine List.filter_congr ?_
          intro q hq
          have hne : q.id ≠ p.id :=
            fun heq => hnd.1 (heq ▸ List.mem_map_of_mem (fun r => r.id) hq)
          have hiff : (some q.id ∈ w.events.map (fun e => e.notionId) ++ [some p.id])
              ↔ some q.id ∈ w.events.map (fun e => e.notionId) := by
            constructor
            · intro hm
              rcases List.mem_append.mp hm with hm2 | hm2
              · exact hm2
              · exact absurd (Option.some.inj (List.mem_singleton.mp hm2)) hne
            · exact fun hm2 => List.mem_append_left _ hm2
          rw [decide_eq_decide.mpr hiff]
        have hcgU : rest.filter (fun q => q.date.isSome
              && decide (some q.id ∈ w.events.map (fun e => e.notionId)
                ++ [some p.id]))
            = rest.filter (fun q => q.date.isSome
              && decide (some q.id ∈ w.events.map (fun e => e.notionId))) := by
          refine List.filter_congr ?_
          intro q hq
          have hne : q.id ≠ p.id :=
            fun heq => hnd.1 (heq ▸ List.mem_map_of_mem (fun r => r.id) hq)
          have hiff : (some q.id ∈ w.events.map (fun e => e.notionId) ++ [some p.id])
              ↔ some q.id ∈ w.events.map (fun e => e.notionId) := by
            constructor
            · intro hm
              rcases List.mem_append.mp hm with hm2 | hm2
              · exact hm2
              · exact absurd (Option.some.inj (List.mem_singleton.mp hm2)) hne
            · exact fun hm2 => List.mem_append_left _ hm2
          rw [decide_eq_decide.mpr hiff]
        rw [hcgN] at Dc
        rw [hcgU] at Du
        refine ⟨A, B, G, ⟨[some p.id] ++ app, by rw [Capp, List.append_assoc]⟩,
          ?_, ?_, ?_, Dd, ?_⟩
        · rw [Dc, List.filter_cons, if_pos (by simp [hd, hnotmem]), List.length_cons]
          omega
        · rw [Du, List.filter_cons, if_neg (by simp [hd, hnotmem])]
        · rw [Ds, List.filter_cons, if_neg (by simp [hd])]
        · intro hyp
          have hyp' : ∀ e ∈ (w.events ++ [mkSyncedEvent body w.nextId p.id]),
              syncedB items e = true
              ∨ ∃ q ∈ rest, q.date.isSome = true ∧ e.notionId = some q.id := by
            intro e hee
            rcases List.mem_append.mp hee with h2 | h2
            · rcases hyp e h2 with hsy | ⟨q, hq, hqd, hqe⟩
              · exact .inl hsy
              · rcases List.mem_cons.mp hq with rfl | hq2
                · exact absurd (List.mem_map.mpr ⟨e, h2, hqe⟩) hnotmem
                · exact .inr ⟨q, hq2, hqd, hqe⟩
            · rcases List.mem_singleton.mp h2 with rfl
              exact .inl (syncedB_mk hlook hconv w.nextId)
          obtain ⟨E1, E2⟩ := E hyp'
          refine ⟨E1, ?_⟩
          intro q hq hqd
          rcases List.mem_cons.mp hq with rfl | hq2
          · rw [Capp]
            exact List.mem_append_left _
              (List.mem_append_right _ (List.mem_singleton_self _))
          · exact E2 q hq2 hqd
      | cons e0 tail =>
        obtain ⟨he0mem, he0link⟩ := filter_head_linked hfil
        have hmem' : some p.id ∈ w.events.map (fun e => e.notionId) :=
          List.mem_map.mpr ⟨e0, he0mem, he0link⟩
        have hstep : processFwdItem true (w, c) p
            = ({ w with events := w.events.map (fun e =>
                  if e.id = e0.id then mkSyncedEvent body e0.id p.id else e) },
               { c with updated := c.updated + 1 }) := by
          unfold processFwdItem
          dsimp only
          rw [hconv]
          dsimp only
          rw [if_pos (show (true : Bool) = true from rfl), hfil]
        rw [hstep]
        have hidpt : ∀ e ∈ w.events, ((fun e => if e.id = e0.id
            then mkSyncedEvent body e0.id p.id else e) e).id = e.id := by
          intro e _
          dsimp only
          by_cases hx : e.id = e0.id
          · rw [if_pos hx]
            exact hx.symm
          · rw [if_neg hx]
        have hpt : ∀ e ∈ w.events, ((fun e => if e.id = e0.id
            then mkSyncedEvent body e0.id p.id else e) e).notionId = e.notionId := by
          intro e hee
          dsimp only
          by_cases hx : e.id = e0.id
          · have heq : e = e0 := nodup_id_inj hwf.1 hee he0mem hx
            subst heq
            rw [if_pos hx]
            exact he0link.symm
          · rw [if_neg hx]
        have hlk : (w.events.map (fun e => if e.id = e0.id
              then mkSyncedEvent body e0.id p.id else e)).map (fun e => e.notionId)
            = w.events.map (fun e => e.notionId) := by
          rw [List.map_map]
          exact List.map_congr_left hpt
        have hwf' : eventsWF { w with events := w.events.map (fun e =>
            if e.id = e0.id then mkSyncedEvent body e0.id p.id else e) } := by
          refine ⟨?_, ?_⟩
          · dsimp only
            have hids : (w.events.map (fun e => if e.id = e0.id
                  then mkSyncedEvent body e0.id p.id else e)).map (fun e => e.id)
                = w.events.map (fun e => e.id) := by
              rw [List.map_map]
              refine List.map_congr_left ?_
              intro e he
              exact hidpt e he
            rw [hids]
            exact hwf.1
          · intro e hee
            dsimp only at hee ⊢
            rcases List.mem_map.mp hee with ⟨e1, he1, rfl⟩
            rw [hidpt e1 he1]
            exact hwf.2 e1 he1
        have hlnd' : ((w.events.map (fun e =>
              if e.id = e0.id then mkSyncedEvent body e0.id p.id else e)).filterMap
              (fun e => e.notionId)).Nodup := by
          rw [filterMap_notionId_eq hlk]
          exact hlnd
        obtain ⟨A, B, G, ⟨app, Capp⟩, Dc, Du, Ds, Dd, E⟩ :=
          fwdItems_run1 items hind hgi rest (i + 1)
            { w with events := w.events.map (fun e =>
                if e.id = e0.id then mkSyncedEvent body e0.id p.id else e) }
            { c with updated := c.updated + 1 } hsubr hnd.2 hwf' hlnd'
        try dsimp only at A Capp Dc Du Ds Dd E
        rw [hlk] at Capp Dc Du
        refine ⟨A, B, G, ⟨app, Capp⟩, ?_, ?_, ?_, Dd, ?_⟩
        · rw [Dc, List.filter_cons, if_neg (by simp [hd, hmem'])]
        · rw [Du, List.filter_cons, if_pos (by simp [hd, hmem']), List.length_cons]
          omega
        · rw [Ds, List.filter_cons, if_neg (by simp [hd])]
        · intro hyp
          have hyp' : ∀ e ∈ w.events.map (fun e => if e.id = e0.id
              then mkSyncedEvent body e0.id p.id else e),
              syncedB items e = true
              ∨ ∃ q ∈ rest, q.date.isSome = true ∧ e.notionId = some q.id := by
            intro e' hee'
            rcases List.mem_map.mp hee' with ⟨e1, he1, rfl⟩
            try dsimp only
            by_cases hx : e1.id = e0.id
            · rw [if_pos hx]
              exact .inl (syncedB_mk hlook hconv e0.id)
            · rw [if_neg hx]
              rcases hyp e1 he1 with hsy | ⟨q, hq, hqd, hqe⟩
              · exact .inl hsy
              · rcases List.mem_cons.mp hq with rfl | hq2
                · exact absurd (congrArg CalEvent.id
                    (linked_unique hlnd he1 he0mem hqe he0link)) hx
                · exact .inr ⟨q, hq2, hqd, hqe⟩
          obtain ⟨E1, E2⟩ := E hyp'
          refine ⟨E1, ?_⟩
          intro q hq hqd
          rcases List.mem_cons.mp hq with rfl | hq2
          · rw [Capp]
            exact List.mem_append_left _ hmem'
          · exact E2 q hq2 hqd

lemma fwdItems_fix (items : List NotionPage)
    (hind : (items.map (fun q => q.id)).Nodup)
    (hgi : ∀ p ∈ items, goodPage p = true) :
    ∀ (ps : List NotionPage) (i : Nat) (w : World) (c : FwdCounts),
      (∀ p ∈ ps, p ∈ items) →
      eventsWF w →
      (∀ e ∈ w.events, syncedB items e = true) →
      (∀ p ∈ ps, p.date.isSome = true →
        some p.id ∈ w.events.map (fun e => e.notionId)) →
      fwdItems allOkFwd ps i (w, c)
        = (w, { c with
            updated := c.updated + (ps.filter (fun p => p.date.isSome)).length,
            skipped := c.skipped + (ps.filter (fun p => p.date.isNone)).length })
  | [], i, w, c, _, _, _, _ => rfl
  | p :: rest, i, w, c, hsub, hwf, hsy, hlink => by
    rw [fwdItems_cons, show allOkFwd.itemOk i = true from rfl]
    have hsubr : ∀ q ∈ rest, q ∈ items := fun q hq => hsub q (List.mem_cons_of_mem p hq)
    have hlinkr : ∀ q ∈ rest, q.date.isSome = true →
        some q.id ∈ w.events.map (fun e => e.notionId) :=
      fun q hq => hlink q (List.mem_cons_of_mem p hq)
    have hpitems := hsub p (List.mem_cons_self p rest)
    have hgp := hgi p hpitems
    cases hd : p.date with
    | none =>
      have hstep : processFwdItem true (w, c) p
          = (w, { c with skipped := c.skipped + 1 }) := by
        unfold processFwdItem
        rw [goodPage_skip hd]
      rw [hstep,
        fwdItems_fix items hind hgi rest (i + 1) w { c with skipped := c.skipped + 1 }
          hsubr hwf hsy hlinkr]
      have hfS : (p :: rest).filter (fun q => q.date.isSome)
          = rest.filter (fun q => q.date.isSome) := by
        rw [List.filter_cons]
        try dsimp only
        rw [hd]
        rw [if_neg (show ¬((none : Option NotionDate).isSome = true) from (by simp))]
      have hfN : (p :: rest).filter (fun q => q.date.isNone)
          = p :: rest.filter (fun q => q.date.isNone) := by
        rw [List.filter_cons]
        try dsimp only
        rw [hd]
        rw [if_pos (show ((none : Option NotionDate).isNone = true) from rfl)]
      rw [hfS, hfN, List.length_cons]
      dsimp only
      congr 1
      congr 1
      omega
    | some nd =>
      obtain ⟨body, et, hconv, hsum, hstart, hend, hetne, hsub'⟩ := goodPage_conv hgp hd
      have hlook : lookupNotionMap items p.id = some p := lookupNotionMap_nodup hind hpitems
      have hmemp : some p.id ∈ w.events.map (fun e => e.notionId) :=
        hlink p (List.mem_cons_self p rest) (by rw [hd]; rfl)
      cases hfil : w.events.filter (fun e => e.notionId = some p.id) with
      | nil => exact absurd hmemp (filter_nil_not_mem hfil)
      | cons e0 tail =>
        obtain ⟨he0mem, he0link⟩ := filter_head_linked hfil
        have hstep : processFwdItem true (w, c) p
            = ({ w with events := w.events.map (fun e =>
                  if e.id = e0.id then mkSyncedEvent body e0.id p.id else e) },
               { c with updated := c.updated + 1 }) := by
          unfold processFwdItem
          dsimp only
          rw [hconv]
          dsimp only
          rw [if_pos (show (true : Bool) = true from rfl), hfil]
        have he0syn := hsy e0 he0mem
        obtain ⟨nid0, p0, body0, hn0, hl0, hc0, he0⟩ := syncedB_spec he0syn
        have hnid0 : nid0 = p.id := by
          rw [he0link] at hn0
          exact (Option.some.inj hn0).symm
        rw [hnid0] at hl0 he0
        have hp0 : p0 = p := by
          rw [hlook] at hl0
          exact (Option.some.inj hl0).symm
        rw [hp0] at hc0
        have hbody0 : body0 = body := by
          rw [hconv] at hc0
          exact (ConvResult.ok.inj hc0).symm
        rw [hbody0] at he0
        have hmapid : w.events.map (fun e =>
            if e.id = e0.id then mkSyncedEvent body e0.id p.id else e) = w.events := by
          have : ∀ e ∈ w.events, (fun e => if e.id = e0.id
              then mkSyncedEvent body e0.id p.id else e) e = e := by
            intro e hee
            dsimp only
            by_cases hx : e.id = e0.id
            · have heq : e = e0 := nodup_id_inj hwf.1 hee he0mem hx
              subst heq
              rw [if_pos hx]
              exact he0.symm
            · rw [if_neg hx]
          rw [List.map_congr_left this, List.map_id']
        have hw' : ({ w with events := w.events.map (fun e =>
            if e.id = e0.id then mkSyncedEvent body e0.id p.id else e) } : World)
            = w := by
          rw [hmapid]
        rw [hstep, hw',
          fwdItems_fix items hind hgi rest (i + 1) w { c with updated := c.updated + 1 }
            hsubr hwf hsy hlinkr]
        have hfS : (p :: rest).filter (fun q => q.date.isSome)
            = p :: rest.filter (fun q => q.date.isSome) := by
          rw [List.filter_cons]
          try dsimp only
          rw [hd]
          rw [if_pos (show (((some nd : Option NotionDate)).isSome = true) from rfl)]
        have hfN : (p :: rest).filter (fun q => q.date.isNone)
            = rest.filter (fun q => q.date.isNone) := by
          rw [List.filter_cons]
          try dsimp only
          rw [hd]
          rw [if_neg (show ¬(((some nd : Option NotionDate)).isNone = true) from
            (by simp))]
        rw [hfS, hfN, List.length_cons]
        dsimp only
        congr 1
        congr 1
        omega

lemma runSync_hygienic (w : World) (hh : hygienic w) :
    (runSync w).1.pages = w.pages
    ∧ eventsWF (runSync w).1
    ∧ ((runSync w).1.events.filterMap (fun e => e.notionId)).Nodup
    ∧ (∀ e ∈ (runSync w).1.events, syncedB w.pages e = true)
    ∧ (∀ p ∈ w.pages, p.date.isSome = true →
        some p.id ∈ (runSync w).1.events.map (fun e => e.notionId))
    ∧ (runSync w).2.n2c.created + (runSync w).2.n2c.updated
        = (w.pages.filter (fun p => p.date.isSome)).length
    ∧ (runSync w).2.n2c.skipped = (w.pages.filter (fun p => p.date.isNone)).length
    ∧ (runSync w).2.c2n = ⟨0, 0, 0⟩ := by
  obtain ⟨hwf, hpnd, hlnd, hgood, hlink⟩ := hh
  obtain ⟨A, B, G, ⟨app, Capp⟩, Dc, Du, Ds, Dd, E⟩ :=
    fwdItems_run1 w.pages hpnd hgood w.pages 0 w ⟨0, 0, 0, 0⟩
      (fun p hp => hp) hpnd hwf hlnd
  have hyp0 : ∀ e ∈ w.events, syncedB w.pages e = true
      ∨ ∃ p ∈ w.pages, p.date.isSome = true ∧ e.notionId = some p.id := by
    intro e hee
    obtain ⟨p, hp, hi1, hi2⟩ := hlink e hee
    exact .inr ⟨p, hp, hi2, hi1⟩
  obtain ⟨E1, E2⟩ := E hyp0
  have hsync1 : sync_notion_to_calendar allOkFwd w w.pages
        (w.pages.map (fun p => p.id))
      = fwdItems allOkFwd w.pages 0 (w, ⟨0, 0, 0, 0⟩) := by
    unfold sync_notion_to_calendar
    rw [if_pos (show allOkFwd.sweepListOk = true from rfl)]
    dsimp only
    refine fwdSweepLoop_noop _ _ 0 _ ?_
    intro e hef nid hnid
    have hee := (List.mem_filter.mp hef).1
    obtain ⟨nid', p', body', hn', hl', _hc', _he'⟩ := syncedB_spec (E1 e hee)
    have hnn : nid' = nid := by
      rw [hn'] at hnid
      exact Option.some.inj hnid
    obtain ⟨hp'mem, hp'id⟩ := lookupNotionMap_mem hl'
    refine List.mem_map.mpr ⟨p', hp'mem, ?_⟩
    rw [hp'id, hnn]
  have hsync2 : sync_calendar_to_notion allOkRev
        (fwdItems allOkFwd w.pages 0 (w, ⟨0, 0, 0, 0⟩)).1 w.pages
      = ((fwdItems allOkFwd w.pages 0 (w, ⟨0, 0, 0, 0⟩)).1, ⟨0, 0, 0⟩) :=
    sync_rev_synced_noop w.pages _ hgood E1
  have h0 : runSync w = ((sync_calendar_to_notion allOkRev
      (sync_notion_to_calendar allOkFwd w w.pages (w.pages.map (fun p => p.id))).1
        w.pages).1,
    ⟨(sync_notion_to_calendar allOkFwd w w.pages (w.pages.map (fun p => p.id))).2,
     (sync_calendar_to_notion allOkRev (sync_notion_to_calendar allOkFwd w w.pages
        (w.pages.map (fun p => p.id))).1 w.pages).2⟩) := rfl
  have hr : runSync w = ((fwdItems allOkFwd w.pages 0 (w, ⟨0, 0, 0, 0⟩)).1,
      ⟨(fwdItems allOkFwd w.pages 0 (w, ⟨0, 0, 0, 0⟩)).2, ⟨0, 0, 0⟩⟩) := by
    rw [h0, hsync1, hsync2]
  rw [hr]
  try dsimp only at Dc Du Ds ⊢
  have hpart := filter_partition w.pages
    (fun p => decide (some p.id ∈ w.events.map (fun e => e.notionId)))
  try dsimp only at hpart
  refine ⟨A, B, G, E1, E2, ?_, ?_, rfl⟩
  · omega
  · omega

lemma runSync_fix (w : World)
    (h1 : (w.pages.map (fun q => q.id)).Nodup)
    (h2 : ∀ p ∈ w.pages, goodPage p = true)
    (h3 : eventsWF w)
    (h5 : ∀ e ∈ w.events, syncedB w.pages e = true)
    (h6 : ∀ p ∈ w.pages, p.date.isSome = true →
        some p.id ∈ w.events.map (fun e => e.notionId)) :
    runSync w = (w, ⟨⟨0, (w.pages.filter (fun p => p.date.isSome)).length,
        (w.pages.filter (fun p => p.date.isNone)).length, 0⟩, ⟨0, 0, 0⟩⟩) := by
  have hfix := fwdItems_fix w.pages h1 h2 w.pages 0 w ⟨0, 0, 0, 0⟩
      (fun p hp => hp) h3 h5 h6
  have hsweeparg : ∀ e ∈ w.events.filter (fun e => e.notionId.isSome), ∀ nid,
      e.notionId = some nid → nid ∈ w.pages.map (fun p => p.id) := by
    intro e hef nid hnid
    have hee := (List.mem_filter.mp hef).1
    obtain ⟨nid', p', body', hn', hl', _hc', _he'⟩ := syncedB_spec (h5 e hee)
    have hnn : nid' = nid := by
      rw [hn'] at hnid
      exact Option.some.inj hnid
    obtain ⟨hp'mem, hp'id⟩ := lookupNotionMap_mem hl'
    refine List.mem_map.mpr ⟨p', hp'mem, ?_⟩
    rw [hp'id, hnn]
  have hsync1 : sync_notion_to_calendar allOkFwd w w.pages
        (w.pages.map (fun p => p.id))
      = (w, ⟨0, (w.pages.filter (fun p => p.date.isSome)).length,
          (w.pages.filter (fun p => p.date.isNone)).length, 0⟩) := by
    unfold sync_notion_to_calendar
    rw [if_pos (show allOkFwd.sweepListOk = true from rfl)]
    dsimp only
    rw [hfix]
    dsimp only
    rw [fwdSweepLoop_noop (w.pages.map (fun p => p.id))
      (w.events.filter (fun e => e.notionId.isSome)) 0 _ hsweeparg]
    congr 1
    dsimp only
    congr 1
    · omega
    · omega
  have hsync2 : sync_calendar_to_notion allOkRev w w.pages = (w, ⟨0, 0, 0⟩) :=
    sync_rev_synced_noop w.pages w h2 h5
  have h0 : runSync w = ((sync_calendar_to_notion allOkRev
      (sync_notion_to_calendar allOkFwd w w.pages (w.pages.map (fun p => p.id))).1
        w.pages).1,
    ⟨(sync_notion_to_calendar allOkFwd w w.pages (w.pages.map (fun p => p.id))).2,
     (sync_calendar_to_notion allOkRev (sync_notion_to_calendar allOkFwd w w.pages
        (w.pages.map (fun p => p.id))).1 w.pages).2⟩) := rfl
  rw [h0, hsync1]
  dsimp only
  rw [hsync2]

/-- C1 counterexample: two successive failure-free runs over the
stale-title store.  The second run does NOT report zero changes: its
forward `updated` counter is 1 (the run-1 reverse pass gave the Record a
date, so run 2 re-updates its Event), and its forward `skipped` counter
is 0 while the first run reported `skipped = 1` — refuting both "all
change counters zero" and "skipped is stable". -/
theorem c1_counterexample_second_run_reports_changes :
    (runSync (runSync worldStale).1).2.n2c.updated = 1
    ∧ (runSync worldStale).2.n2c.skipped = 1
    ∧ (runSync (runSync worldStale).1).2.n2c.skipped = 0 := by
  refine ⟨by decide, by decide, by decide⟩

/-- C1 amended: over a hygienic store (distinct identifiers, well-behaved
Records, every Event linked to exactly one dated Record), the second of
two failure-free runs leaves the store unchanged and reports zero in the
forward `created` and `deleted` counters and in all reverse counters, and
its `skipped` counter equals the first run's; but it is NOT silent: its
forward `updated` counter equals the first run's `created + updated` —
every previously synced Record is unconditionally re-updated. -/
theorem c1_amended_second_run_reupdates_every_synced_record
    (w : World) (hh : hygienic w) :
    (runSync (runSync w).1).2.n2c.created = 0
    ∧ (runSync (runSync w).1).2.n2c.deleted = 0
    ∧ (runSync (runSync w).1).2.n2c.skipped = (runSync w).2.n2c.skipped
    ∧ (runSync (runSync w).1).2.n2c.updated
        = (runSync w).2.n2c.created + (runSync w).2.n2c.updated
    ∧ (runSync (runSync w).1).2.c2n = ⟨0, 0, 0⟩
    ∧ (runSync w).2.c2n = ⟨0, 0, 0⟩
    ∧ (runSync (runSync w).1).1 = (runSync w).1 := by
  obtain ⟨A, B, G, E1, E2, Hcu, Hs, Hrev⟩ := runSync_hygienic w hh
  obtain ⟨_hwf, hpnd, _hlnd, hgood, _hlink⟩ := hh
  have h1' : ((runSync w).1.pages.map (fun q => q.id)).Nodup := by
    rw [A]
    exact hpnd
  have h2' : ∀ p ∈ (runSync w).1.pages, goodPage p = true := by
    rw [A]
    exact hgood
  have h5' : ∀ e ∈ (runSync w).1.events, syncedB (runSync w).1.pages e = true := by
    rw [A]
    exact E1
  have h6' : ∀ p ∈ (runSync w).1.pages, p.date.isSome = true →
      some p.id ∈ (runSync w).1.events.map (fun e => e.notionId) := by
    rw [A]
    exact E2
  have hfix := runSync_fix (runSync w).1 h1' h2' B h5' h6'
  rw [hfix]
  refine ⟨rfl, rfl, ?_, ?_, rfl, Hrev, rfl⟩
  · rw [A, Hs]
  · rw [A, Hcu]

/-- C1 amended witness: on the concrete hygienic store with one dated
Record (linked Event), one undated Record and no other Events, the second
run keeps the store fixed, reports `updated = 1 = created₁ + updated₁`,
`skipped = 1` as in run 1, and zeros elsewhere. -/
theorem c1_amended_second_run_reupdates_every_synced_record_witness :
    (runSync (runSync worldC1).1).2.n2c.created = 0
    ∧ (runSync (runSync worldC1).1).2.n2c.deleted = 0
    ∧ (runSync (runSync worldC1).1).2.n2c.skipped = (runSync worldC1).2.n2c.skipped
    ∧ (runSync (runSync worldC1).1).2.n2c.updated
        = (runSync worldC1).2.n2c.created + (runSync worldC1).2.n2c.updated
    ∧ (runSync (runSync worldC1).1).2.c2n = ⟨0, 0, 0⟩
    ∧ (runSync worldC1).2.c2n = ⟨0, 0, 0⟩
    ∧ (runSync (runSync worldC1).1).1 = (runSync worldC1).1 :=
  c1_amended_second_run_reupdates_every_synced_record worldC1
    (by refine ⟨⟨by decide, by decide⟩, by decide, by decide, by decide, by decide⟩)
